import Mathlib

/-! kfetch_mod.c : a character device that reports host information

Shallow embedding of `src/kfetch_mod.c`.

* C characters are `Char`; the terminator is `NUL`.
* The global `msg[BUF_LEN + 1]` is a `List Char` holding every byte of the
  array (content, terminator and whatever lies behind the terminator).
  A store outside the array or a scan that runs off its end is undefined
  behaviour in C; the embedding returns `none` there.
* A local array that a file is read into is the `List Char` of its 512 bytes;
  `sscanf` reads it byte by byte and is undefined (`none`) only if it reads
  past the last byte. `strstr` takes the length of the string first, so the
  providers that use it see the C string in the array: the `List Char` of the
  characters in front of the terminator, with a pointer into it being the
  suffix it points at.
* `int`, `unsigned int`, `unsigned long` and `unsigned long long` values are
  naturals, reduced modulo the width where the code can overflow; the kernel
  is a 64-bit one, where `unsigned long` has 64 bits.
* `copy_from_user` and `copy_to_user` belong to the caller's side: whether they
  succeed is an argument of the call.
-/

namespace Kfetch

/-! ## Constants of the source -/

def SUCCESS : Int := 0
def BUF_LEN : Nat := 1024
def ROWS : Nat := 7
def COLS : Nat := 20
def CDEV_NOT_USED : Int := 0
def CDEV_EXCLUSIVE_OPEN : Int := 1
/-- Error number `EBUSY` of `asm/errno.h`. -/
def EBUSY : Int := 16
/-- Error number `EFAULT` of `asm/errno.h`. -/
def EFAULT : Int := 14

/-- Modelled from the spec: the header `kfetch.h` is not part of the sources; the
bit of the kernel release line, "1=kernel release". -/
def KFETCH_RELEASE : Nat := 1
/-- Modelled from the spec: the header `kfetch.h` is not part of the sources; the
bit of the CPU model line, "2=CPU model". -/
def KFETCH_CPU_MODEL : Nat := 2
/-- Modelled from the spec: the header `kfetch.h` is not part of the sources; the
bit of the CPU count line, "4=CPU count". -/
def KFETCH_NUM_CPUS : Nat := 4
/-- Modelled from the spec: the header `kfetch.h` is not part of the sources; the
bit of the memory line, "8=memory". -/
def KFETCH_MEM : Nat := 8
/-- Modelled from the spec: the header `kfetch.h` is not part of the sources; the
bit of the process count line, "16=process count". -/
def KFETCH_NUM_PROCS : Nat := 16
/-- Modelled from the spec: the header `kfetch.h` is not part of the sources; the
bit of the uptime line, "32=uptime". -/
def KFETCH_UPTIME : Nat := 32

/-! ## C strings -/

/-- The string terminator. -/
def NUL : Char := Char.ofNat 0

/-- The C string that starts an array: the characters in front of the first `NUL`. -/
def cstr (m : List Char) : List Char := m.takeWhile (fun c => c != NUL)

/-- Embedding of `strlen(m)`: the index of the first `NUL`; `none` when the array holds no
terminator, where the scan leaves the array. -/
def strlen : List Char → Option Nat
  | [] => none
  | c :: m => if c = NUL then some 0 else (strlen m).map (fun n => n + 1)

/-- Embedding of `sprintf(msg + pos, "%s", s)`: stores the characters of `s` and a terminator
from index `pos` on; `none` when the store leaves the array. -/
def sprintf_at (msg : List Char) (pos : Nat) (s : List Char) : Option (List Char) :=
  if pos + s.length < msg.length then
    some (msg.take pos ++ s ++ NUL :: msg.drop (pos + s.length + 1))
  else none

/-- Embedding of `sprintf(msg + strlen(msg), "%s", s)`: appends `s` to the string in `msg`. -/
def sprintf_end (msg : List Char) (s : List Char) : Option (List Char) :=
  (strlen msg).bind (fun n => sprintf_at msg n s)

/-- Embedding of `strstr(hay, needle)` on a C string: the suffix at the first occurrence of
`needle`, `none` for the null pointer. -/
def strstr : List Char → List Char → Option (List Char)
  | [], needle => if needle = [] then some [] else none
  | c :: s, needle =>
    if needle.isPrefixOf (c :: s) then some (c :: s) else strstr s needle

/-- Embedding of `strchr(s, ch)` on a C string, for `ch` other than the terminator: the suffix
at the first `ch`, `none` for the null pointer. -/
def strchr : List Char → Char → Option (List Char)
  | [], _ => none
  | c :: s, ch => if c = ch then some (c :: s) else strchr s ch

/-! ## Channel access: `device_open`, `device_release` -/

/-- The globals of the module the channel operations work on. -/
structure Globals where
  /-- The global `static atomic_t already_open`. -/
  already_open : Int
  /-- The use count of the module, moved by `try_module_get` / `module_put`. -/
  refcnt : Int
  /-- The global `static char msg[BUF_LEN + 1]`, every byte of it. -/
  msg : List Char
  deriving DecidableEq

/-- Embedding of `atomic_cmpxchg(v, old, new)`: returns the value found, and stores `new`
when that value is `old`. -/
def atomic_cmpxchg (v old new : Int) : Int × Int :=
  if v = old then (v, new) else (v, v)

/-- Embedding of `device_open`: the return value and the globals afterwards. -/
def device_open (g : Globals) : Int × Globals :=
  let r := atomic_cmpxchg g.already_open CDEV_NOT_USED CDEV_EXCLUSIVE_OPEN
  if r.1 ≠ 0 then
    (-EBUSY, { g with already_open := r.2 })
  else
    (SUCCESS, { g with already_open := r.2, refcnt := g.refcnt + 1 })

/-- Embedding of `device_release`: the return value and the globals afterwards. -/
def device_release (g : Globals) : Int × Globals :=
  (SUCCESS, { g with already_open := CDEV_NOT_USED, refcnt := g.refcnt - 1 })

/-- The access state `Held`. -/
def Held (g : Globals) : Prop := g.already_open = CDEV_EXCLUSIVE_OPEN

/-- The access state `Free`. -/
def Free (g : Globals) : Prop := g.already_open = CDEV_NOT_USED

/-! ## Formatting and scanning -/

/-- The character of a decimal digit. -/
def digitChar (d : Nat) : Char := Char.ofNat (48 + d)

/-- The digits of `n` in front of `acc`, most significant first. The first
argument bounds the number of digits. -/
def utoa_aux : Nat → Nat → List Char → List Char
  | 0, _, acc => acc
  | fuel + 1, n, acc =>
    if n < 10 then digitChar n :: acc
    else utoa_aux fuel (n / 10) (digitChar (n % 10) :: acc)

/-- The text `%u`, `%llu` and (for a value that is not negative) `%d` print. -/
def utoa (n : Nat) : List Char := utoa_aux (n + 1) n []

/-- Embedding of `isspace` of the kernel (`lib/ctype.c`). -/
def isspace (c : Char) : Bool :=
  (9 ≤ c.toNat && c.toNat ≤ 13) || c.toNat == 32 || c.toNat == 160

/-- Embedding of `isdigit` of the kernel. -/
def isdigit (c : Char) : Bool := 48 ≤ c.toNat && c.toNat ≤ 57

/-- Embedding of `skip_spaces(str)` on the rest of an array: the suffix at the first character
that is no white space; `none` when the scan leaves the array. -/
def skip_spaces : List Char → Option (List Char)
  | [] => none
  | c :: str => if isspace c then skip_spaces str else some (c :: str)

/-- Embedding of `simple_strtoull(str, &next, 10)` on the rest of an array: reads the leading
decimal digits into a 64-bit accumulator that wraps; returns the value and
`next`; `none` when the scan leaves the array. -/
def simple_strtoull : List Char → Nat → Option (Nat × List Char)
  | [], _ => none
  | c :: s, res =>
    if isdigit c then simple_strtoull s ((res * 10 + (c.toNat - 48)) % 2 ^ 64)
    else some (res, c :: s)

/-- The items of a `sscanf` format, as far as the source uses them. -/
inductive Dir where
  /-- a white space character of the format -/
  | space
  /-- an ordinary character of the format -/
  | lit (c : Char)
  /-- the conversion `%lu` or `%llu` -/
  | ull
  /-- any other conversion, which the source does not use -/
  | stop
  deriving DecidableEq

/-- Splits a `sscanf` format into its items. -/
def fmt_dirs : List Char → List Dir
  | [] => []
  | '%' :: 'l' :: 'l' :: 'u' :: fmt => Dir.ull :: fmt_dirs fmt
  | '%' :: 'l' :: 'u' :: fmt => Dir.ull :: fmt_dirs fmt
  | c :: fmt =>
    if c = '%' then [Dir.stop]
    else if isspace c then Dir.space :: fmt_dirs fmt
    else Dir.lit c :: fmt_dirs fmt

/-- Embedding of `vsscanf` of the kernel (`lib/vsprintf.c`) on a split format and the rest of
an array: the values converted, in order. White space in the format skips any
white space of the input; an ordinary character must match; a conversion stops
at the terminator, skips white space, and needs a digit. `none` when the scan
leaves the array. -/
def scan : List Dir → List Char → Option (List Nat)
  | [], _ => some []
  | Dir.space :: ds, str => (skip_spaces str).bind fun str1 => scan ds str1
  | Dir.lit c :: ds, str =>
    match str with
    | [] => none
    | x :: str1 => if x = c then scan ds str1 else some []
  | Dir.ull :: ds, str =>
    match str with
    | [] => none
    | x :: _ =>
      if x = NUL then some []
      else
        (skip_spaces str).bind fun str1 =>
        match str1 with
        | [] => none
        | d :: _ =>
          if isdigit d then
            (simple_strtoull str1 0).bind fun r =>
            (scan ds r.2).map fun vals => r.1 :: vals
          else some []
  | Dir.stop :: _, _ => some []

/-- Embedding of `sscanf(buf, fmt, ...)` on an array: the values stored through the pointer
arguments, in order; `none` when the scan leaves the array. -/
def sscanf (buf : List Char) (fmt : String) : Option (List Nat) :=
  scan (fmt_dirs fmt.toList) buf

/-- Embedding of `memset(buffer, 0, size); kernel_read(file, buffer, size, &pos)`: the array
after the read of a file with content `file`. -/
def kernel_read (file : List Char) (size : Nat) : List Char :=
  file.take size ++ List.replicate (size - file.length) NUL

/-- The C string `strstr` sees in the array filled by `kernel_read`; `none` when the
file fills the array and leaves no terminator: `strstr` starts with `strlen` of
its first argument, which then leaves the array. -/
def snapshot (file : List Char) (size : Nat) : Option (List Char) :=
  if (kernel_read file size).contains NUL then some (cstr (kernel_read file size)) else none

/-! ## The metrics providers -/

/-- What the host supplies to the providers. -/
structure Host where
  /-- The array `utsname()->nodename`; the node name is the C string `cstr nodename`. -/
  nodename : List Char
  /-- The array `utsname()->release`; the release is the C string `cstr release`. -/
  release : List Char
  /-- The content of `/proc/cpuinfo`, `none` when `filp_open` fails. -/
  cpuinfo : Option (List Char)
  /-- The content of `/proc/meminfo`, `none` when `filp_open` fails. -/
  meminfo : Option (List Char)
  /-- The number of tasks `for_each_process` visits; the task list is bounded by
  the pid limit, far below the range of `int`. -/
  nprocs : Nat
  /-- The content of `/proc/uptime`, `none` when `filp_open` fails. -/
  uptime : Option (List Char)

/-- The loop `for (i = 0; i < strlen(nodename); i++) sprintf(msg + strlen(msg), "-")`. -/
def dashes : Nat → List Char → Option (List Char)
  | 0, msg => some msg
  | n + 1, msg => (sprintf_end msg "-".toList).bind (dashes n)

/-- Embedding of `get_hostname(msg)` -/
def get_hostname (h : Host) (msg : List Char) : Option (List Char) :=
  (sprintf_at msg 0
    ("                   \x1b[33m".toList ++ cstr h.nodename ++ "\x1b[0m\n".toList)).bind fun m1 =>
  (sprintf_end m1 "                   ".toList).bind fun m2 =>
  (dashes (cstr h.nodename).length m2).bind fun m3 =>
  sprintf_end m3 "\n".toList

/-- Embedding of `get_kernel_info(msg)` -/
def get_kernel_info (h : Host) (msg : List Char) : Option (List Char) :=
  sprintf_end msg ("\x1b[33mKernel:\x1b[0m\t".toList ++ cstr h.release ++ "\n".toList)

/-- The loop `while (*model_name && *model_name != '\n')` of `get_CPU_info`, which
appends one character per round. -/
def copy_line : List Char → List Char → Option (List Char)
  | [], msg => some msg
  | c :: model_name, msg =>
    if c = '\n' then some msg
    else (sprintf_end msg [c]).bind (copy_line model_name)

/-- Embedding of `get_CPU_info(msg)` -/
def get_CPU_info (h : Host) (msg : List Char) : Option (List Char) :=
  match h.cpuinfo with
  | none => some msg
  | some file =>
    match snapshot file 512 with
    | none => none
    | some cpuinfo_buffer =>
      match strstr cpuinfo_buffer "model name".toList with
      | none => some msg
      | some model_name =>
        (sprintf_end msg "\x1b[33mCPU:\x1b[0m\t\t".toList).bind fun m1 =>
        match strchr model_name ':' with
        | none => some m1
        | some colon =>
          (copy_line (colon.tail.dropWhile (fun c => c == ' ' || c == '\t')) m1).bind fun m2 =>
          sprintf_end m2 "\n".toList

/-- The `while` loop of `get_CPU_counts` from the pointer `cpu_block` on; returns
`(online_cpus, total_cpus)`. The first argument bounds the number of rounds.
`none` where `strchr` returns the null pointer, which `strstr` then reads. -/
def cpu_scan : Nat → List Char → Nat → Nat → Option (Nat × Nat)
  | 0, _, _, _ => none
  | fuel + 1, cpu_block, online_cpus, total_cpus =>
    match strstr cpu_block "processor".toList with
    | none => some (online_cpus, total_cpus)
    | some found =>
      match strchr found '\n' with
      | none => none
      | some nl =>
        match strstr nl.tail "core id".toList with
        | some _ => cpu_scan fuel nl.tail (online_cpus + 1) (total_cpus + 1)
        | none => cpu_scan fuel nl.tail online_cpus (total_cpus + 1)

/-- Embedding of `get_CPU_counts(msg)` -/
def get_CPU_counts (h : Host) (msg : List Char) : Option (List Char) :=
  match h.cpuinfo with
  | none => some msg
  | some file =>
    match snapshot file 512 with
    | none => none
    | some cpuinfo_buffer =>
      match cpu_scan (cpuinfo_buffer.length + 1) cpuinfo_buffer 0 0 with
      | none => none
      | some (online_cpus, total_cpus) =>
        sprintf_end msg ("\x1b[33mCPUs:\x1b[0m\t".toList ++ utoa online_cpus ++ " / ".toList
          ++ utoa total_cpus ++ "\n".toList)

/-- Embedding of `getMemoryInfo(msg)` -/
def getMemoryInfo (h : Host) (msg : List Char) : Option (List Char) :=
  match h.meminfo with
  | none => some msg
  | some file =>
    match sscanf (kernel_read file 512) "MemTotal: %llu kB\nMemFree: %llu kB" with
    | none => none
    | some vals =>
      let total_memory := vals.getD 0 0 / 1024
      let free_memory := vals.getD 1 0 / 1024
      sprintf_end msg ("\x1b[33mMem:\x1b[0m\t\t".toList ++ utoa free_memory ++ " MB / ".toList
        ++ utoa total_memory ++ " MB\n".toList)

/-- Embedding of `get_process_info(msg)` -/
def get_process_info (h : Host) (msg : List Char) : Option (List Char) :=
  let process_count := h.nprocs
  if process_count ≠ 0 then
    sprintf_end msg ("\x1b[33mProcs:\x1b[0m\t".toList ++ utoa process_count ++ "\n".toList)
  else
    sprintf_end msg "Failed to fetch the number of process\n".toList

/-- Embedding of `get_uptime_info(msg)` -/
def get_uptime_info (h : Host) (msg : List Char) : Option (List Char) :=
  match h.uptime with
  | none => some msg
  | some file =>
    match sscanf (kernel_read file 512) "%lu" with
    | none => none
    | some vals =>
      let uptime_seconds := vals.getD 0 0
      let uptime_minutes := (uptime_seconds / 60) % 2 ^ 32
      sprintf_end msg ("\x1b[33mUptime:\x1b[0m\t".toList ++ utoa uptime_minutes
        ++ " mins\n".toList)

/-! ## The channel: `device_read`, `write_banner`, `device_write` -/

/-- Embedding of `device_read(filp, buffer, len, offset)`: the return value, the bytes put
into the caller's buffer, the globals and `*offset` afterwards. The length the
caller asks for, `_len`, is overwritten before it is read. `copy_ok` tells
whether `copy_to_user` succeeds. `none` where the code reads outside `msg`. -/
def device_read (g : Globals) (_len : Nat) (offset : Nat) (copy_ok : Bool) :
    Option (Int × List Char × Globals × Nat) :=
  match g.msg.get? offset with
  | none => none
  | some c =>
    if c = NUL then some (0, [], g, 0)
    else
      match strlen (g.msg.drop offset) with
      | none => none
      | some len =>
        if copy_ok then
          some (len, (g.msg.drop offset).take len,
            { g with msg := List.replicate (BUF_LEN + 1) NUL }, offset + len)
        else some (0, [], g, offset)

/-- The table `graphic[ROWS][COLS + 1]` of `device_write`. -/
def graphic : List (List Char) :=
  [ "        .-.        ".toList,
    "       (.. |       ".toList,
    "       <>  |       ".toList,
    "      / --- \\      ".toList,
    "     ( |   | |     ".toList,
    "   |\\\\_)___/\\)/\\   ".toList,
    "  <__)------(__/   ".toList ]

/-- Embedding of `write_banner(msg, graphic, &currentRow)`: `msg` and `currentRow` afterwards. -/
def write_banner (msg : List Char) (currentRow : Nat) : Option (List Char × Nat) :=
  if currentRow < ROWS then
    (sprintf_end msg (graphic.getD currentRow [])).map (fun m => (m, currentRow + 1))
  else some (msg, currentRow)

/-- One block `if (mask_info & bit) { write_banner(...); provider(msg); }`. -/
def metric (mask_info bit : Nat) (provider : List Char → Option (List Char))
    (st : List Char × Nat) : Option (List Char × Nat) :=
  if mask_info &&& bit ≠ 0 then
    (write_banner st.1 st.2).bind fun st1 =>
    (provider st1.1).map fun m => (m, st1.2)
  else some st

/-- The loop `while (currentRow < ROWS) { write_banner(...); sprintf(..., "\n"); }`.
The first argument bounds the number of rounds. -/
def fill_rows : Nat → List Char × Nat → Option (List Char × Nat)
  | 0, st => some st
  | fuel + 1, st =>
    if st.2 < ROWS then
      (write_banner st.1 st.2).bind fun st1 =>
      (sprintf_end st1.1 "\n".toList).bind fun m => fill_rows fuel (m, st1.2)
    else some st

/-- Embedding of `device_write(filp, buff, len, off)`: the return value, the globals and `*off`
afterwards. `buff` is the `int` that `copy_from_user` obtains, `none` when the
copy fails. `none` where a store leaves `msg` or a provider reads through an
invalid pointer. -/
def device_write (h : Host) (g : Globals) (buff : Option Nat) (len : Nat) (off : Nat) :
    Option (Int × Globals × Nat) :=
  match buff with
  | none => some (-EFAULT, g, off)
  | some mask_info =>
    (get_hostname h g.msg).bind fun m0 =>
    (metric mask_info KFETCH_RELEASE (get_kernel_info h) (m0, 0)).bind fun s1 =>
    (metric mask_info KFETCH_CPU_MODEL (get_CPU_info h) s1).bind fun s2 =>
    (metric mask_info KFETCH_NUM_CPUS (get_CPU_counts h) s2).bind fun s3 =>
    (metric mask_info KFETCH_MEM (getMemoryInfo h) s3).bind fun s4 =>
    (metric mask_info KFETCH_NUM_PROCS (get_process_info h) s4).bind fun s5 =>
    (metric mask_info KFETCH_UPTIME (get_uptime_info h) s5).bind fun s6 =>
    (fill_rows ROWS s6).map fun s7 =>
    ((len : Int), { g with msg := s7.1 }, off)

/-! ## The text of a report

The second description of `device_write`: the characters each provider appends,
as plain lists, and the report as their concatenation. `none` stands for a
provider that reads through an invalid pointer. -/

/-- The two lines `get_hostname` stores. -/
def text_hostname (h : Host) : List Char :=
  "                   \x1b[33m".toList ++ cstr h.nodename ++ "\x1b[0m\n".toList
    ++ "                   ".toList ++ List.replicate (cstr h.nodename).length '-'
    ++ "\n".toList

/-- The line `get_kernel_info` appends. -/
def text_kernel_info (h : Host) : List Char :=
  "\x1b[33mKernel:\x1b[0m\t".toList ++ cstr h.release ++ "\n".toList

/-- The characters `get_CPU_info` appends for the snapshot `cpuinfo_buffer`. -/
def text_CPU_line (cpuinfo_buffer : List Char) : List Char :=
  match strstr cpuinfo_buffer "model name".toList with
  | none => []
  | some model_name =>
    "\x1b[33mCPU:\x1b[0m\t\t".toList ++
      match strchr model_name ':' with
      | none => []
      | some colon =>
        (colon.tail.dropWhile (fun c => c == ' ' || c == '\t')).takeWhile (fun c => c != '\n')
          ++ "\n".toList

/-- The characters `get_CPU_info` appends. -/
def text_CPU_info (h : Host) : Option (List Char) :=
  match h.cpuinfo with
  | none => some []
  | some file => (snapshot file 512).map text_CPU_line

/-- The line `get_CPU_counts` prints for the two counters. -/
def text_counts (online_cpus total_cpus : Nat) : List Char :=
  "\x1b[33mCPUs:\x1b[0m\t".toList ++ utoa online_cpus ++ " / ".toList
    ++ utoa total_cpus ++ "\n".toList

/-- The characters `get_CPU_counts` appends. -/
def text_CPU_counts (h : Host) : Option (List Char) :=
  match h.cpuinfo with
  | none => some []
  | some file =>
    (snapshot file 512).bind fun cpuinfo_buffer =>
    (cpu_scan (cpuinfo_buffer.length + 1) cpuinfo_buffer 0 0).map fun r =>
    text_counts r.1 r.2

/-- The line `getMemoryInfo` prints for the two values in megabytes. -/
def text_mem (free_memory total_memory : Nat) : List Char :=
  "\x1b[33mMem:\x1b[0m\t\t".toList ++ utoa free_memory ++ " MB / ".toList
    ++ utoa total_memory ++ " MB\n".toList

/-- The characters `getMemoryInfo` appends. -/
def text_MemoryInfo (h : Host) : Option (List Char) :=
  match h.meminfo with
  | none => some []
  | some file =>
    (sscanf (kernel_read file 512) "MemTotal: %llu kB\nMemFree: %llu kB").map fun vals =>
    text_mem (vals.getD 1 0 / 1024) (vals.getD 0 0 / 1024)

/-- The line `get_process_info` appends. -/
def text_process_info (h : Host) : List Char :=
  if h.nprocs ≠ 0 then "\x1b[33mProcs:\x1b[0m\t".toList ++ utoa h.nprocs ++ "\n".toList
  else "Failed to fetch the number of process\n".toList

/-- The line `get_uptime_info` prints for the minutes. -/
def text_uptime (uptime_minutes : Nat) : List Char :=
  "\x1b[33mUptime:\x1b[0m\t".toList ++ utoa uptime_minutes ++ " mins\n".toList

/-- The characters `get_uptime_info` appends. -/
def text_uptime_info (h : Host) : Option (List Char) :=
  match h.uptime with
  | none => some []
  | some file =>
    (sscanf (kernel_read file 512) "%lu").map fun vals =>
    text_uptime ((vals.getD 0 0 / 60) % 2 ^ 32)

/-- The effect of `write_banner` on the text and the row counter. -/
def text_banner (st : List Char × Nat) : List Char × Nat :=
  if st.2 < ROWS then (st.1 ++ graphic.getD st.2 [], st.2 + 1) else st

/-- The effect of one metric block of `device_write` on the text and the row
counter, for a provider that appends `e`. -/
def text_metric (mask_info bit : Nat) (e : Option (List Char)) (st : List Char × Nat) :
    Option (List Char × Nat) :=
  if mask_info &&& bit ≠ 0 then e.map fun s => ((text_banner st).1 ++ s, (text_banner st).2)
  else some st

/-- The effect of the closing loop of `device_write` on the text and the row
counter. -/
def text_fill : Nat → List Char × Nat → List Char × Nat
  | 0, st => st
  | fuel + 1, st =>
    if st.2 < ROWS then text_fill fuel ((text_banner st).1 ++ "\n".toList, (text_banner st).2)
    else st

/-- The text and the row counter after the six metric blocks of `device_write`. -/
def metrics_state (h : Host) (mask_info : Nat) : Option (List Char × Nat) :=
  ((((((some (text_hostname h, 0) : Option (List Char × Nat)).bind
    (text_metric mask_info KFETCH_RELEASE (some (text_kernel_info h)))).bind
    (text_metric mask_info KFETCH_CPU_MODEL (text_CPU_info h))).bind
    (text_metric mask_info KFETCH_NUM_CPUS (text_CPU_counts h))).bind
    (text_metric mask_info KFETCH_MEM (text_MemoryInfo h))).bind
    (text_metric mask_info KFETCH_NUM_PROCS (some (text_process_info h)))).bind
    (text_metric mask_info KFETCH_UPTIME (text_uptime_info h))

/-- The text `device_write` composes for a mask, with the final row counter. -/
def report_state (h : Host) (mask_info : Nat) : Option (List Char × Nat) :=
  (metrics_state h mask_info).map (text_fill ROWS)

/-- The report `device_write` composes for a mask. -/
def report (h : Host) (mask_info : Nat) : Option (List Char) :=
  (report_state h mask_info).map Prod.fst

/-- A buffer operation that appends the text `e` to a string stored from the first
byte of the array on. -/
def Appends (P : List Char → Option (List Char)) (e : Option (List Char)) : Prop :=
  (∀ s, e = some s → NUL ∉ s) ∧
  ∀ msg a, NUL ∉ a →
    (sprintf_at msg 0 a).bind P = e.bind (fun s => sprintf_at msg 0 (a ++ s))

/-- The text and row counter `st`, stored into the array `msg`. -/
def stored (msg : List Char) (st : Option (List Char × Nat)) : Option (List Char × Nat) :=
  st.bind fun s => (sprintf_at msg 0 s.1).map fun m => (m, s.2)

/-- No terminator inside the text of a state. -/
def NulFree (st : Option (List Char × Nat)) : Prop := ∀ s, st = some s → NUL ∉ s.1

/-! ## Sessions -/

/-- A WRITE or READ call that returns, as a step of the session state: the
globals and the cursor `f_pos` of the open file, which the kernel passes to the
call as `*off` and stores back afterwards. -/
inductive Call : Globals × Nat → Globals × Nat → Prop
  | write (h : Host) (g : Globals) (off : Nat) (buff : Option Nat) (len : Nat)
      (r : Int) (g1 : Globals) (off1 : Nat) :
      device_write h g buff len off = some (r, g1, off1) → Call (g, off) (g1, off1)
  | read (g : Globals) (off : Nat) (len : Nat) (copy_ok : Bool)
      (r : Int) (data : List Char) (g1 : Globals) (off1 : Nat) :
      device_read g len off copy_ok = some (r, data, g1, off1) → Call (g, off) (g1, off1)

/-- The session states a sequence of WRITE and READ calls reaches from `s0`. -/
inductive Reach (s0 : Globals × Nat) : Globals × Nat → Prop
  | start : Reach s0 s0
  | call (s t : Globals × Nat) : Reach s0 s → Call s t → Reach s0 t

/-- A call of a session that writes only while the cursor is 0: any READ, and a
WRITE issued at cursor 0. -/
inductive CallAtZero : Globals × Nat → Globals × Nat → Prop
  | write (h : Host) (g : Globals) (buff : Option Nat) (len : Nat)
      (r : Int) (g1 : Globals) (off1 : Nat) :
      device_write h g buff len 0 = some (r, g1, off1) → CallAtZero (g, 0) (g1, off1)
  | read (g : Globals) (off : Nat) (len : Nat) (copy_ok : Bool)
      (r : Int) (data : List Char) (g1 : Globals) (off1 : Nat) :
      device_read g len off copy_ok = some (r, data, g1, off1) →
      CallAtZero (g, off) (g1, off1)

/-- The session states reached from `s0` when every WRITE is issued at cursor 0. -/
inductive ReachAtZero (s0 : Globals × Nat) : Globals × Nat → Prop
  | start : ReachAtZero s0 s0
  | call (s t : Globals × Nat) : ReachAtZero s0 s → CallAtZero s t → ReachAtZero s0 t

/-- The globals after the module is loaded and the device opened once: the static
array `msg` is all zero. -/
def fresh : Globals :=
  { already_open := CDEV_EXCLUSIVE_OPEN, refcnt := 1, msg := List.replicate (BUF_LEN + 1) NUL }

/-- A host whose node name is `k` and whose `/proc` files cannot be opened. -/
def host_min : Host :=
  { nodename := "k".toList, release := "6".toList, cpuinfo := none, meminfo := none,
    nprocs := 1, uptime := none }

/-- The rows `graphic[i]`, `graphic[i + 1]`, ... each followed by one of the texts. -/
def banner_rows : Nat → List (List Char) → List Char
  | _, [] => []
  | i, t :: ts => graphic.getD i [] ++ t ++ banner_rows (i + 1) ts

/-- The report for mask 0 on `host_min`: the hostname block and the seven rows. -/
def report_min : List Char :=
  "                   \x1b[33mk\x1b[0m\n                   -\n        .-.        \n       (.. |       \n       <>  |       \n      / --- \\      \n     ( |   | |     \n   |\\\\_)___/\\)/\\   \n  <__)------(__/   \n".toList

/-- The globals after `device_write` stored `report_min` into the array of `fresh`. -/
def wrote_min : Globals :=
  { fresh with msg := report_min ++ NUL :: fresh.msg.drop (report_min.length + 1) }

/-- The host `host_min` with a readable `/proc/uptime` that reports 60 seconds. -/
def host_up : Host :=
  { host_min with uptime := some "60.00 1.00\n".toList }

/-- The report for the mask with only the uptime bit on `host_up`: the hostname
block, row 0 with the uptime line, and rows 1 to 6 each followed by a newline. -/
def report_up : List Char :=
  "                   \x1b[33mk\x1b[0m\n                   -\n        .-.        \x1b[33mUptime:\x1b[0m\t1 mins\n       (.. |       \n       <>  |       \n      / --- \\      \n     ( |   | |     \n   |\\\\_)___/\\)/\\   \n  <__)------(__/   \n".toList

/-! ## The CPU counts as the specification words them -/

/-- The lines of a text, split at the newline characters. -/
def split_lines : List Char → List (List Char)
  | [] => [[]]
  | c :: s =>
    if c = '\n' then [] :: split_lines s
    else
      match split_lines s with
      | [] => [[c]]
      | l :: ls => (c :: l) :: ls

/-- One line of the count worded by the specification. The state is the number of
active units, the number of units, and whether the block of the current unit
was already counted as active. A line that starts with `processor` opens the
block of a new unit; a block is active when one of its lines holds `core id`. -/
def spec_count_line (st : Nat × Nat × Bool) (line : List Char) : Nat × Nat × Bool :=
  if "processor".toList.isPrefixOf line then
    if (strstr line "core id".toList).isSome then (st.1 + 1, st.2.1 + 1, true)
    else (st.1, st.2.1 + 1, false)
  else if st.2.1 ≠ 0 ∧ st.2.2 = false ∧ (strstr line "core id".toList).isSome then
    (st.1 + 1, st.2.1, true)
  else st

/-- The count `(active, total)` as the specification words it: total is the number
of line-leading `processor` markers, active the number of units whose own block
holds a `core id` field. -/
def spec_cpu_counts (text : List Char) : Nat × Nat :=
  (((split_lines text).foldl spec_count_line (0, 0, false)).1,
    ((split_lines text).foldl spec_count_line (0, 0, false)).2.1)

/-- A CPU description with 4 `processor` entries, of which exactly the last 2 hold
a `core id` field. -/
def cpuinfo_late : List Char :=
  "processor\t: 0\nmodel name\t: A\nprocessor\t: 1\nmodel name\t: A\nprocessor\t: 2\ncore id\t\t: 0\nprocessor\t: 3\ncore id\t\t: 1\n".toList

/-- A host whose CPU description is `cpuinfo_late`. -/
def host_late : Host :=
  { host_min with cpuinfo := some cpuinfo_late }

/-- A host whose CPU description holds no `model name` key. -/
def host_nomodel : Host :=
  { host_min with cpuinfo := some "processor\t: 0\ncore id\t\t: 0\n".toList }

/-- A host whose CPU description has no line with the key `model name`, but holds
these characters inside the key of its only line. -/
def host_inkey : Host :=
  { host_min with cpuinfo := some "bogus model name-key: Wrong\n".toList }

/-- A host whose memory file starts with the two lines of the example. -/
def host_mem : Host :=
  { host_min with
    meminfo := some
      "MemTotal:       16384000 kB\nMemFree:         4096000 kB\nMemAvailable:    9000000 kB\n".toList }

/-- A host whose data fill the sizes the code reads: a node name and a release of 64
characters, a CPU description of 511 bytes that is one `model name` line with a
value of 500 characters, a memory file with the largest 64-bit values, a full
process table and a long uptime. -/
def host_big : Host :=
  { nodename := List.replicate 64 'h',
    release := List.replicate 64 'r',
    cpuinfo := some ("model name:".toList ++ List.replicate 500 'x'),
    meminfo := some
      "MemTotal: 18446744073709551615 kB\nMemFree: 18446744073709551615 kB\n".toList,
    nprocs := 4194304,
    uptime := some "257698037700.00 1.00\n".toList }

/-- A host whose uptime file reads 257698037760 seconds, which is 4294967296
minutes, one more than an `unsigned int` holds. -/
def host_long : Host :=
  { host_min with uptime := some "257698037760.00 1.00\n".toList }

/-! ## The layout of a report -/

/-- The six metrics in canonical order: the bit of each and the text its provider
appends (`none` for a provider that reads through an invalid pointer). -/
def metric_table (h : Host) : List (Nat × Option (List Char)) :=
  [ (KFETCH_RELEASE, some (text_kernel_info h)),
    (KFETCH_CPU_MODEL, text_CPU_info h),
    (KFETCH_NUM_CPUS, text_CPU_counts h),
    (KFETCH_MEM, text_MemoryInfo h),
    (KFETCH_NUM_PROCS, some (text_process_info h)),
    (KFETCH_UPTIME, text_uptime_info h) ]

/-- The texts of the metrics whose bit is set in the mask, in canonical order. -/
def selected (h : Host) (mask_info : Nat) : List (Option (List Char)) :=
  ((metric_table h).filter (fun p => mask_info &&& p.1 ≠ 0)).map Prod.snd

/-- All the texts of a list, when each of them is defined. -/
def all_texts : List (Option (List Char)) → Option (List (List Char))
  | [] => some []
  | none :: _ => none
  | some t :: es => (all_texts es).map (fun ts => t :: ts)

/-- The report laid out from the texts of the selected metrics: the hostname block,
row `j` of `graphic` with text `j`, and every remaining row with a newline. -/
def layout (h : Host) (ts : List (List Char)) : List Char :=
  text_hostname h ++ banner_rows 0 (ts ++ List.replicate (ROWS - ts.length) "\n".toList)

/-- Adds the text of one metric to the texts selected so far when its bit is set. -/
def select (mask_info : Nat) (sel : Option (List (List Char)))
    (p : Nat × Option (List Char)) : Option (List (List Char)) :=
  if mask_info &&& p.1 ≠ 0 then sel.bind fun ts => p.2.map fun t => ts ++ [t] else sel

/-- The lines that start with the rows `graphic[i]`, `graphic[i + 1]`, ..., each row
followed by one of the line bodies; the lines are given without their newline. -/
def row_lines : Nat → List (List Char) → List (List Char)
  | _, [] => []
  | i, b :: bs => (graphic.getD i [] ++ b) :: row_lines (i + 1) bs

/-- The report for the mask with only the kernel release bit on `host_min`. -/
def report_release : List Char :=
  "                   \x1b[33mk\x1b[0m\n                   -\n        .-.        \x1b[33mKernel:\x1b[0m\t6\n       (.. |       \n       <>  |       \n      / --- \\      \n     ( |   | |     \n   |\\\\_)___/\\)/\\   \n  <__)------(__/   \n".toList

/-! ## What the loop of `get_CPU_counts` scans -/

/-- The scan of `get_CPU_counts`, in words: `Scanned text rests` holds when the scan
of `text` meets `rests.length` markers `processor`, each followed by a newline
on its line, and `rests` lists, marker by marker, the text behind the end of
the marker's line. The first marker is the first occurrence of `processor` in
the text; the scan goes on in the text behind the end of its line. -/
inductive Scanned : List Char → List (List Char) → Prop
  | done (text : List Char) :
      ¬ "processor".toList <:+: text → Scanned text []
  | step (pre mid rest : List Char) (rests : List (List Char)) :
      ¬ "processor".toList <:+: pre ++ "processor".toList.dropLast →
      '\n' ∉ mid →
      Scanned rest rests →
      Scanned (pre ++ "processor".toList ++ mid ++ '\n' :: rest) (rest :: rests)

/-- The number of scanned markers behind whose line `core id` occurs. -/
def count_core_id (rests : List (List Char)) : Nat :=
  (rests.filter (fun r => decide ("core id".toList <:+: r))).length

/-- A host whose CPU description has an earlier line that holds the words
`model name` inside its key, and then the line whose key is `model name`. -/
def host_bogus : Host :=
  { host_min with
    cpuinfo := some "bogus model name-key: Wrong\nmodel name\t: Right\n".toList }

/-- A host with the CPU description of one unit. -/
def host_cpu : Host :=
  { host_min with
    cpuinfo := some "processor\t: 0\nmodel name\t: Fast CPU\ncore id\t\t: 0\n".toList }

/-! # Theorems -/

/-! ## C strings in the buffer -/

theorem nul_not_mem_cstr (m : List Char) : NUL ∉ cstr m := by
  intro hm
  have := List.mem_takeWhile_imp hm
  simp at this

theorem cstr_eq_self {s : List Char} (hs : NUL ∉ s) : cstr s = s := by
  unfold cstr
  rw [List.takeWhile_eq_self_iff]
  intro c hc
  simp only [bne_iff_ne, ne_eq]
  rintro rfl
  exact hs hc

theorem strlen_append_nul (a t : List Char) (ha : NUL ∉ a) :
    strlen (a ++ NUL :: t) = some a.length := by
  induction a with
  | nil => simp [strlen]
  | cons c a ih =>
    have hc : c ≠ NUL := fun h => ha (by simp [h])
    have ha1 : NUL ∉ a := fun h => ha (by simp [h])
    simp [strlen, hc, ih ha1]

theorem sprintf_at_zero (msg s : List Char) :
    sprintf_at msg 0 s =
      if s.length < msg.length then some (s ++ NUL :: msg.drop (s.length + 1)) else none := by
  simp [sprintf_at]

/-- Appending to a string that was stored from the first byte of the array on
is storing the concatenation. -/
theorem sprintf_end_after (msg a s : List Char) (ha : NUL ∉ a) :
    (sprintf_at msg 0 a).bind (fun m => sprintf_end m s) = sprintf_at msg 0 (a ++ s) := by
  rw [sprintf_at_zero, sprintf_at_zero]
  by_cases h1 : a.length < msg.length
  · simp only [h1, if_true, Option.some_bind, sprintf_end, strlen_append_nul _ _ ha]
    simp only [sprintf_at, List.length_append, List.length_cons, List.length_drop]
    by_cases h2 : a.length + s.length < msg.length
    · have h3 : a.length + s.length < a.length + (msg.length - (a.length + 1) + 1) := by omega
      simp only [h2, h3, if_true, Option.some.injEq]
      rw [List.take_left, List.append_assoc, List.append_assoc]
      congr 2
      rw [List.drop_append_eq_append_drop]
      have e1 : a.length + s.length + 1 - a.length = (s.length + 1) := by omega
      have e2 : a.length + s.length + 1 ≥ a.length := by omega
      rw [List.drop_of_length_le e2, e1]
      simp only [List.nil_append, List.drop_succ_cons, List.drop_drop]
      rw [show a.length + 1 + s.length = a.length + s.length + 1 by omega]
    · have h3 : ¬ a.length + s.length < a.length + (msg.length - (a.length + 1) + 1) := by omega
      simp [h2, h3]
  · have h2 : ¬ a.length + s.length < msg.length := by omega
    simp [h1, h2]

theorem appends_sprintf_end (s : List Char) (hs : NUL ∉ s) :
    Appends (fun m => sprintf_end m s) (some s) := by
  refine ⟨?_, ?_⟩
  · intro t ht
    cases ht
    exact hs
  · intro msg a ha
    simpa using sprintf_end_after msg a s ha

theorem appends_nothing : Appends (fun m => some m) (some []) := by
  refine ⟨?_, ?_⟩
  · intro t ht
    cases ht
    simp
  · intro msg a _
    simp

theorem appends_undefined : Appends (fun _ => none) none := by
  refine ⟨?_, ?_⟩
  · intro t ht
    cases ht
  · intro msg a _
    simp

/-! ## Digits -/

theorem isdigit_digitChar (d : Nat) (hd : d < 10) : isdigit (digitChar d) = true := by
  interval_cases d <;> decide

theorem toNat_digitChar (d : Nat) (hd : d < 10) : (digitChar d).toNat - 48 = d := by
  interval_cases d <;> decide

theorem isdigit_of_mem_utoa_aux (fuel n : Nat) (acc : List Char) (c : Char)
    (hc : c ∈ utoa_aux fuel n acc) : c ∈ acc ∨ isdigit c = true := by
  induction fuel generalizing n acc with
  | zero => exact Or.inl hc
  | succ fuel ih =>
    unfold utoa_aux at hc
    split at hc
    · rename_i hn
      rcases List.mem_cons.1 hc with rfl | h
      · exact Or.inr (isdigit_digitChar n hn)
      · exact Or.inl h
    · rcases ih _ _ hc with h | h
      · rcases List.mem_cons.1 h with rfl | h
        · exact Or.inr (isdigit_digitChar _ (Nat.mod_lt _ (by decide)))
        · exact Or.inl h
      · exact Or.inr h

theorem isdigit_of_mem_utoa (n : Nat) (c : Char) (hc : c ∈ utoa n) : isdigit c = true := by
  rcases isdigit_of_mem_utoa_aux _ _ _ _ hc with h | h
  · cases h
  · exact h

theorem nul_not_mem_utoa (n : Nat) : NUL ∉ utoa n := by
  intro h
  have := isdigit_of_mem_utoa n NUL h
  revert this
  decide

/-! ## The providers append their texts -/

theorem dashes_after (n : Nat) (msg a : List Char) (ha : NUL ∉ a) :
    (sprintf_at msg 0 a).bind (dashes n) = sprintf_at msg 0 (a ++ List.replicate n '-') := by
  induction n generalizing a with
  | zero => simp [dashes]
  | succ n ih =>
    have h1 : NUL ∉ a ++ "-".toList := by
      simp only [List.mem_append, not_or]
      exact ⟨ha, by decide⟩
    have : (sprintf_at msg 0 a).bind (dashes (n + 1))
        = ((sprintf_at msg 0 a).bind (fun m => sprintf_end m "-".toList)).bind (dashes n) := by
      cases sprintf_at msg 0 a <;> simp [dashes]
    rw [this, sprintf_end_after msg a _ ha, ih _ h1, List.replicate_succ]
    simp

theorem get_hostname_eq (h : Host) (msg : List Char) :
    get_hostname h msg = sprintf_at msg 0 (text_hostname h) := by
  have n0 := nul_not_mem_cstr h.nodename
  have h1 : NUL ∉ "                   \x1b[33m".toList ++ cstr h.nodename ++ "\x1b[0m\n".toList := by
    simp only [List.mem_append, not_or]
    exact ⟨⟨by decide, n0⟩, by decide⟩
  have h2 : NUL ∉ "                   \x1b[33m".toList ++ cstr h.nodename ++ "\x1b[0m\n".toList
      ++ "                   ".toList := by
    simp only [List.mem_append, not_or]
    exact ⟨⟨⟨by decide, n0⟩, by decide⟩, by decide⟩
  have h3 : NUL ∉ "                   \x1b[33m".toList ++ cstr h.nodename ++ "\x1b[0m\n".toList
      ++ "                   ".toList ++ List.replicate (cstr h.nodename).length '-' := by
    intro hm
    rcases List.mem_append.1 hm with hm | hm
    · exact h2 hm
    · have := List.eq_of_mem_replicate hm
      revert this
      decide
  unfold get_hostname text_hostname
  rw [← sprintf_end_after msg _ _ h3, ← dashes_after _ msg _ h2, ← sprintf_end_after msg _ _ h1]
  cases sprintf_at msg 0
    ("                   \x1b[33m".toList ++ cstr h.nodename ++ "\x1b[0m\n".toList) with
  | none => rfl
  | some m1 =>
    simp only [Option.some_bind]
    cases sprintf_end m1 "                   ".toList with
    | none => rfl
    | some m2 =>
      simp only [Option.some_bind]

theorem appends_seq {P Q : List Char → Option (List Char)} {s : List Char}
    {e : Option (List Char)} (hP : Appends P (some s)) (hQ : Appends Q e) :
    Appends (fun m => (P m).bind Q) (e.map (fun t => s ++ t)) := by
  have hs : NUL ∉ s := hP.1 s rfl
  refine ⟨?_, ?_⟩
  · intro t ht
    cases e with
    | none => cases ht
    | some u =>
      cases ht
      simp only [List.mem_append, not_or]
      exact ⟨hs, hQ.1 u rfl⟩
  · intro msg a ha
    have h1 : (sprintf_at msg 0 a).bind (fun m => (P m).bind Q)
        = ((sprintf_at msg 0 a).bind P).bind Q := by
      cases sprintf_at msg 0 a <;> rfl
    have h2 : NUL ∉ a ++ s := by
      simp only [List.mem_append, not_or]
      exact ⟨ha, hs⟩
    rw [h1, hP.2 msg a ha, Option.some_bind, hQ.2 msg _ h2]
    cases e <;> simp

theorem copy_line_after (p msg a : List Char) (ha : NUL ∉ a) (hp : NUL ∉ p) :
    (sprintf_at msg 0 a).bind (copy_line p)
      = sprintf_at msg 0 (a ++ p.takeWhile (fun c => c != '\n')) := by
  induction p generalizing a with
  | nil => simp [copy_line]
  | cons c p ih =>
    have hc : NUL ≠ c := fun hh => hp (by simp [hh])
    have hp1 : NUL ∉ p := fun hh => hp (by simp [hh])
    by_cases hnl : c = '\n'
    · subst hnl
      simp [copy_line]
    · have h1 : (sprintf_at msg 0 a).bind (copy_line (c :: p))
          = ((sprintf_at msg 0 a).bind (fun m => sprintf_end m [c])).bind (copy_line p) := by
        cases sprintf_at msg 0 a <;> simp [copy_line, hnl]
      have h2 : NUL ∉ a ++ [c] := by
        simp only [List.mem_append, List.mem_singleton, not_or]
        exact ⟨ha, hc⟩
      rw [h1, sprintf_end_after msg a _ ha, ih _ h2 hp1]
      simp [List.takeWhile_cons, hnl]

theorem appends_copy_line (p : List Char) (hp : NUL ∉ p) :
    Appends (copy_line p) (some (p.takeWhile (fun c => c != '\n'))) := by
  refine ⟨?_, ?_⟩
  · intro t ht
    cases ht
    exact fun hm => hp ((List.takeWhile_prefix _).subset hm)
  · intro msg a ha
    simpa using copy_line_after p msg a ha hp

theorem strstr_suffix (s needle p : List Char) (h : strstr s needle = some p) : p <:+ s := by
  induction s with
  | nil =>
    unfold strstr at h
    split at h
    · cases h
      exact List.suffix_refl _
    · cases h
  | cons c s ih =>
    unfold strstr at h
    split at h
    · cases h
      exact List.suffix_refl _
    · exact (ih h).trans (List.suffix_cons c s)

theorem strchr_suffix (s : List Char) (ch : Char) (p : List Char) (h : strchr s ch = some p) :
    p <:+ s := by
  induction s with
  | nil => cases h
  | cons c s ih =>
    unfold strchr at h
    split at h
    · cases h
      exact List.suffix_refl _
    · exact (ih h).trans (List.suffix_cons c s)

theorem snapshot_nul_free (file : List Char) (size : Nat) (buf : List Char)
    (h : snapshot file size = some buf) : NUL ∉ buf := by
  unfold snapshot at h
  split at h
  · cases h
    exact nul_not_mem_cstr _
  · cases h

theorem nul_not_mem_text_hostname (h : Host) : NUL ∉ text_hostname h := by
  unfold text_hostname
  intro hm
  simp only [List.mem_append] at hm
  rcases hm with ((((hm | hm) | hm) | hm) | hm) | hm
  · revert hm; decide
  · exact nul_not_mem_cstr _ hm
  · revert hm; decide
  · revert hm; decide
  · have := List.eq_of_mem_replicate hm
    revert this; decide
  · revert hm; decide

theorem nul_not_mem_text_kernel_info (h : Host) : NUL ∉ text_kernel_info h := by
  unfold text_kernel_info
  intro hm
  simp only [List.mem_append] at hm
  rcases hm with (hm | hm) | hm
  · revert hm; decide
  · exact nul_not_mem_cstr _ hm
  · revert hm; decide

theorem nul_not_mem_text_counts (a b : Nat) : NUL ∉ text_counts a b := by
  unfold text_counts
  intro hm
  simp only [List.mem_append] at hm
  rcases hm with (((hm | hm) | hm) | hm) | hm
  · revert hm; decide
  · exact nul_not_mem_utoa _ hm
  · revert hm; decide
  · exact nul_not_mem_utoa _ hm
  · revert hm; decide

theorem nul_not_mem_text_mem (a b : Nat) : NUL ∉ text_mem a b := by
  unfold text_mem
  intro hm
  simp only [List.mem_append] at hm
  rcases hm with (((hm | hm) | hm) | hm) | hm
  · revert hm; decide
  · exact nul_not_mem_utoa _ hm
  · revert hm; decide
  · exact nul_not_mem_utoa _ hm
  · revert hm; decide

theorem nul_not_mem_text_uptime (a : Nat) : NUL ∉ text_uptime a := by
  unfold text_uptime
  intro hm
  simp only [List.mem_append] at hm
  rcases hm with (hm | hm) | hm
  · revert hm; decide
  · exact nul_not_mem_utoa _ hm
  · revert hm; decide

theorem nul_not_mem_text_process_info (h : Host) : NUL ∉ text_process_info h := by
  unfold text_process_info
  split
  · intro hm
    simp only [List.mem_append] at hm
    rcases hm with (hm | hm) | hm
    · revert hm; decide
    · exact nul_not_mem_utoa _ hm
    · revert hm; decide
  · decide

theorem appends_get_kernel_info (h : Host) :
    Appends (get_kernel_info h) (some (text_kernel_info h)) :=
  appends_sprintf_end _ (nul_not_mem_text_kernel_info h)

theorem appends_get_process_info (h : Host) :
    Appends (get_process_info h) (some (text_process_info h)) := by
  have := appends_sprintf_end _ (nul_not_mem_text_process_info h)
  unfold get_process_info text_process_info at *
  split <;> simp_all

theorem appends_get_CPU_counts (h : Host) :
    Appends (get_CPU_counts h) (text_CPU_counts h) := by
  unfold get_CPU_counts text_CPU_counts
  cases h.cpuinfo with
  | none => exact appends_nothing
  | some file =>
    simp only
    cases snapshot file 512 with
    | none => exact appends_undefined
    | some buf =>
      simp only [Option.some_bind]
      cases cpu_scan (buf.length + 1) buf 0 0 with
      | none => exact appends_undefined
      | some r =>
        obtain ⟨a, b⟩ := r
        exact appends_sprintf_end _ (nul_not_mem_text_counts a b)

theorem appends_getMemoryInfo (h : Host) :
    Appends (getMemoryInfo h) (text_MemoryInfo h) := by
  unfold getMemoryInfo text_MemoryInfo
  cases h.meminfo with
  | none => exact appends_nothing
  | some file =>
    simp only
    cases sscanf (kernel_read file 512) "MemTotal: %llu kB\nMemFree: %llu kB" with
    | none => exact appends_undefined
    | some vals => exact appends_sprintf_end _ (nul_not_mem_text_mem _ _)

theorem appends_get_uptime_info (h : Host) :
    Appends (get_uptime_info h) (text_uptime_info h) := by
  unfold get_uptime_info text_uptime_info
  cases h.uptime with
  | none => exact appends_nothing
  | some file =>
    simp only
    cases sscanf (kernel_read file 512) "%lu" with
    | none => exact appends_undefined
    | some vals => exact appends_sprintf_end _ (nul_not_mem_text_uptime _)

theorem appends_get_CPU_info_buffer (buf : List Char) (hbuf : NUL ∉ buf) :
    Appends
      (fun msg =>
        match strstr buf "model name".toList with
        | none => some msg
        | some model_name =>
          (sprintf_end msg "\x1b[33mCPU:\x1b[0m\t\t".toList).bind fun m1 =>
          match strchr model_name ':' with
          | none => some m1
          | some colon =>
            (copy_line (colon.tail.dropWhile (fun c => c == ' ' || c == '\t')) m1).bind fun m2 =>
            sprintf_end m2 "\n".toList)
      (some (text_CPU_line buf)) := by
  unfold text_CPU_line
  cases hs : strstr buf "model name".toList with
  | none => exact appends_nothing
  | some model_name =>
    simp only
    have hlabel := appends_sprintf_end "\x1b[33mCPU:\x1b[0m\t\t".toList (by decide)
    cases hc : strchr model_name ':' with
    | none =>
      simpa using appends_seq hlabel appends_nothing
    | some colon =>
      have hcolon : NUL ∉ colon.tail.dropWhile (fun c => c == ' ' || c == '\t') := by
        intro hm
        have h1 := (List.dropWhile_suffix _).subset hm
        have h2 := (List.tail_suffix colon).subset h1
        have h3 := (strchr_suffix _ _ _ hc).subset h2
        exact hbuf ((strstr_suffix _ _ _ hs).subset h3)
      have hnl := appends_sprintf_end "\n".toList (by decide)
      simpa using appends_seq hlabel (appends_seq (appends_copy_line _ hcolon) hnl)

theorem appends_get_CPU_info (h : Host) :
    Appends (get_CPU_info h) (text_CPU_info h) := by
  unfold get_CPU_info text_CPU_info
  cases h.cpuinfo with
  | none => exact appends_nothing
  | some file =>
    simp only
    cases hsn : snapshot file 512 with
    | none => exact appends_undefined
    | some buf => exact appends_get_CPU_info_buffer buf (snapshot_nul_free _ _ _ hsn)

/-! ## `device_write` stores the report -/

theorem nul_not_mem_graphic (row : Nat) : NUL ∉ graphic.getD row [] := by
  by_cases hr : row < 7
  · interval_cases row <;> decide
  · rw [List.getD_eq_default _ _ (by simpa [graphic] using hr)]
    simp

theorem nulFree_text_banner (st : List Char × Nat) (hst : NUL ∉ st.1) :
    NUL ∉ (text_banner st).1 := by
  unfold text_banner
  split
  · simp only [List.mem_append, not_or]
    exact ⟨hst, nul_not_mem_graphic _⟩
  · exact hst

theorem write_banner_stored (msg : List Char) (st : List Char × Nat) (hst : NUL ∉ st.1) :
    (stored msg (some st)).bind (fun s => write_banner s.1 s.2)
      = stored msg (some (text_banner st)) := by
  obtain ⟨a, row⟩ := st
  simp only [stored, Option.some_bind, write_banner, text_banner]
  by_cases hr : row < ROWS
  · simp only [hr, if_true]
    rw [← sprintf_end_after msg a _ hst]
    cases sprintf_at msg 0 a <;> simp [hr]
  · simp only [hr, if_false]
    cases sprintf_at msg 0 a <;> simp [hr]

theorem nulFree_text_metric {e : Option (List Char)} (he : ∀ s, e = some s → NUL ∉ s)
    (mask_info bit : Nat) (st : Option (List Char × Nat)) (hst : NulFree st) :
    NulFree (st.bind (text_metric mask_info bit e)) := by
  intro s hs
  cases st with
  | none => cases hs
  | some s0 =>
    have h0 := hst s0 rfl
    simp only [Option.some_bind, text_metric] at hs
    split at hs
    · cases e with
      | none => cases hs
      | some t =>
        cases hs
        simp only [List.mem_append, not_or]
        exact ⟨nulFree_text_banner s0 h0, he t rfl⟩
    · cases hs
      exact h0

theorem metric_stored {P : List Char → Option (List Char)} {e : Option (List Char)}
    (hP : Appends P e) (mask_info bit : Nat) (msg : List Char)
    (st : Option (List Char × Nat)) (hst : NulFree st) :
    (stored msg st).bind (metric mask_info bit P)
      = stored msg (st.bind (text_metric mask_info bit e)) := by
  cases st with
  | none => rfl
  | some s0 =>
    have h0 := hst s0 rfl
    simp only [Option.some_bind]
    by_cases hb : mask_info &&& bit ≠ 0
    · have hm : metric mask_info bit P = fun st =>
          (write_banner st.1 st.2).bind fun st1 => (P st1.1).map fun m => (m, st1.2) := by
        funext st
        simp only [metric]
        rw [if_pos hb]
      have ht : text_metric mask_info bit e s0
          = e.map fun s => ((text_banner s0).1 ++ s, (text_banner s0).2) := by
        simp only [text_metric]
        rw [if_pos hb]
      have h1 : (stored msg (some s0)).bind
            (fun st => (write_banner st.1 st.2).bind fun st1 =>
              (P st1.1).map fun m => (m, st1.2))
          = ((stored msg (some s0)).bind (fun s => write_banner s.1 s.2)).bind
              (fun st1 => (P st1.1).map fun m => (m, st1.2)) := by
        cases stored msg (some s0) <;> rfl
      rw [hm, ht, h1, write_banner_stored msg s0 h0]
      have h2 := hP.2 msg (text_banner s0).1 (nulFree_text_banner s0 h0)
      simp only [stored, Option.some_bind]
      cases hput : sprintf_at msg 0 (text_banner s0).1 with
      | none =>
        rw [hput] at h2
        cases e with
        | none => rfl
        | some t =>
          simp only [Option.none_bind, Option.some_bind] at h2
          simp [← h2]
      | some m =>
        rw [hput] at h2
        simp only [Option.some_bind] at h2
        simp only [Option.map_some', Option.some_bind, h2]
        cases e with
        | none => rfl
        | some t =>
          simp
    · have hm : metric mask_info bit P = fun st => some st := by
        funext st
        simp only [metric]
        rw [if_neg hb]
      have ht : text_metric mask_info bit e s0 = some s0 := by
        simp only [text_metric]
        rw [if_neg hb]
      rw [hm, ht]
      cases stored msg (some s0) <;> rfl

theorem stored_bind_congr {β : Type} (msg : List Char) (s0 : List Char × Nat)
    (F G : List Char × Nat → Option β) (hFG : ∀ m, F (m, s0.2) = G (m, s0.2)) :
    (stored msg (some s0)).bind F = (stored msg (some s0)).bind G := by
  simp only [stored, Option.some_bind]
  cases sprintf_at msg 0 s0.1 with
  | none => rfl
  | some m => simpa using hFG m

theorem newline_stored (msg : List Char) (st : List Char × Nat) (hst : NUL ∉ st.1) :
    (stored msg (some st)).bind
        (fun s => (sprintf_end s.1 "\n".toList).map fun m => (m, s.2))
      = stored msg (some (st.1 ++ "\n".toList, st.2)) := by
  simp only [stored, Option.some_bind]
  rw [← sprintf_end_after msg st.1 _ hst]
  cases sprintf_at msg 0 st.1 <;> simp

theorem nulFree_text_fill (fuel : Nat) (st : List Char × Nat) (hst : NUL ∉ st.1) :
    NUL ∉ (text_fill fuel st).1 := by
  induction fuel generalizing st with
  | zero => exact hst
  | succ fuel ih =>
    unfold text_fill
    split
    · apply ih
      simp only [List.mem_append, not_or]
      exact ⟨nulFree_text_banner st hst, by decide⟩
    · exact hst

theorem fill_rows_stored (fuel : Nat) (msg : List Char) (st : List Char × Nat)
    (hst : NUL ∉ st.1) :
    (stored msg (some st)).bind (fill_rows fuel) = stored msg (some (text_fill fuel st)) := by
  induction fuel generalizing st with
  | zero =>
    simp only [text_fill]
    cases stored msg (some st) <;> rfl
  | succ fuel ih =>
    by_cases hr : st.2 < ROWS
    · have h1 : (stored msg (some st)).bind (fill_rows (fuel + 1))
          = (stored msg (some st)).bind (fun s =>
              (write_banner s.1 s.2).bind fun st1 =>
              ((sprintf_end st1.1 "\n".toList).map fun m => (m, st1.2)).bind
                (fill_rows fuel)) := by
        apply stored_bind_congr
        intro m
        simp only [fill_rows, hr, if_true]
        cases write_banner m st.2 with
        | none => rfl
        | some st1 =>
          simp only [Option.some_bind]
          cases sprintf_end st1.1 "\n".toList <;> rfl
      have h2 : (stored msg (some st)).bind (fun s =>
              (write_banner s.1 s.2).bind fun st1 =>
              ((sprintf_end st1.1 "\n".toList).map fun m => (m, st1.2)).bind
                (fill_rows fuel))
          = (((stored msg (some st)).bind (fun s => write_banner s.1 s.2)).bind
              (fun s => (sprintf_end s.1 "\n".toList).map fun m => (m, s.2))).bind
                (fill_rows fuel) := by
        cases stored msg (some st) with
        | none => rfl
        | some s =>
          simp only [Option.some_bind]
          cases write_banner s.1 s.2 <;> rfl
      rw [h1, h2, write_banner_stored msg st hst,
        newline_stored msg _ (nulFree_text_banner st hst), ih]
      · simp only [text_fill, hr, if_true]
      · simp only [List.mem_append, not_or]
        exact ⟨nulFree_text_banner st hst, by decide⟩
    · have h1 : (stored msg (some st)).bind (fill_rows (fuel + 1))
          = (stored msg (some st)).bind (fun s => some s) := by
        apply stored_bind_congr
        intro m
        simp only [fill_rows, hr, if_false]
      rw [h1]
      simp only [text_fill, hr, if_false]
      cases stored msg (some st) <;> rfl

theorem metric_step {β : Type} {P : List Char → Option (List Char)} {e : Option (List Char)}
    (hP : Appends P e) (mask_info bit : Nat) (msg : List Char)
    (st : Option (List Char × Nat)) (hst : NulFree st)
    (K : List Char × Nat → Option β) :
    (stored msg st).bind (fun s => (metric mask_info bit P s).bind K)
      = (stored msg (st.bind (text_metric mask_info bit e))).bind K := by
  rw [← metric_stored hP mask_info bit msg st hst]
  cases stored msg st <;> rfl

/-- The refinement: `device_write` with a mask that was copied in stores the text
of `report_state` from the first byte of `msg` on, or is undefined where that
text is undefined or does not fit. -/
theorem device_write_eq (h : Host) (g : Globals) (mask_info len off : Nat) :
    device_write h g (some mask_info) len off
      = (stored g.msg (report_state h mask_info)).map
          (fun s => ((len : Int), { g with msg := s.1 }, off)) := by
  have e0 : device_write h g (some mask_info) len off
      = (stored g.msg (some (text_hostname h, 0))).bind fun s0 =>
        (metric mask_info KFETCH_RELEASE (get_kernel_info h) s0).bind fun s1 =>
        (metric mask_info KFETCH_CPU_MODEL (get_CPU_info h) s1).bind fun s2 =>
        (metric mask_info KFETCH_NUM_CPUS (get_CPU_counts h) s2).bind fun s3 =>
        (metric mask_info KFETCH_MEM (getMemoryInfo h) s3).bind fun s4 =>
        (metric mask_info KFETCH_NUM_PROCS (get_process_info h) s4).bind fun s5 =>
        (metric mask_info KFETCH_UPTIME (get_uptime_info h) s5).bind fun s6 =>
        (fill_rows ROWS s6).map fun s7 =>
        ((len : Int), { g with msg := s7.1 }, off) := by
    simp only [device_write, get_hostname_eq, stored, Option.some_bind]
    cases sprintf_at g.msg 0 (text_hostname h) <;> rfl
  have n0 : NulFree (some (text_hostname h, 0)) := by
    intro s hs
    cases hs
    exact nul_not_mem_text_hostname h
  have n1 := nulFree_text_metric (appends_get_kernel_info h).1 mask_info KFETCH_RELEASE _ n0
  have n2 := nulFree_text_metric (appends_get_CPU_info h).1 mask_info KFETCH_CPU_MODEL _ n1
  have n3 := nulFree_text_metric (appends_get_CPU_counts h).1 mask_info KFETCH_NUM_CPUS _ n2
  have n4 := nulFree_text_metric (appends_getMemoryInfo h).1 mask_info KFETCH_MEM _ n3
  have n5 := nulFree_text_metric (appends_get_process_info h).1 mask_info KFETCH_NUM_PROCS _ n4
  have n6 := nulFree_text_metric (appends_get_uptime_info h).1 mask_info KFETCH_UPTIME _ n5
  rw [e0, metric_step (appends_get_kernel_info h) _ _ _ _ n0,
    metric_step (appends_get_CPU_info h) _ _ _ _ n1,
    metric_step (appends_get_CPU_counts h) _ _ _ _ n2,
    metric_step (appends_getMemoryInfo h) _ _ _ _ n3,
    metric_step (appends_get_process_info h) _ _ _ _ n4,
    metric_step (appends_get_uptime_info h) _ _ _ _ n5]
  change (stored g.msg (metrics_state h mask_info)).bind _ = _
  change NulFree (metrics_state h mask_info) at n6
  unfold report_state
  generalize metrics_state h mask_info = st6 at n6 ⊢
  cases st6 with
  | none => rfl
  | some s6 =>
    have := fill_rows_stored ROWS g.msg s6 (n6 s6 rfl)
    simp only [Option.map_some']
    rw [← this]
    cases stored g.msg (some s6) with
    | none => rfl
    | some s => simp only [Option.some_bind]

/-! ## C1: exclusive access -/

/-- C1. In each of the two access states, `device_open` returns `-EBUSY` exactly when
the state is Held and then leaves the globals as they are; from Free it returns
`SUCCESS` and makes the state Held; `device_release` makes the state Free, and a
`device_open` after it succeeds and holds the channel. -/
theorem device_open_exclusive (g : Globals) (hg : Free g ∨ Held g) :
    (Held g ↔ (device_open g).1 = -EBUSY) ∧
    (Held g → (device_open g).2 = g) ∧
    (Free g → (device_open g).1 = SUCCESS) ∧
    Held (device_open g).2 ∧
    Free (device_release g).2 ∧
    (device_open (device_release g).2).1 = SUCCESS ∧
    Held (device_open (device_release g).2).2 := by
  obtain ⟨a, r, m⟩ := g
  simp only [Free, Held, CDEV_NOT_USED, CDEV_EXCLUSIVE_OPEN] at hg
  rcases hg with rfl | rfl <;>
    simp [Free, Held, device_open, device_release, atomic_cmpxchg, CDEV_NOT_USED,
      CDEV_EXCLUSIVE_OPEN, SUCCESS, EBUSY]

/-- The statement of `device_open_exclusive` at the held channel `fresh`. -/
theorem device_open_exclusive_witness :
    (Free fresh ∨ Held fresh) ∧
    ((Held fresh ↔ (device_open fresh).1 = -EBUSY) ∧
    (Held fresh → (device_open fresh).2 = fresh) ∧
    (Free fresh → (device_open fresh).1 = SUCCESS) ∧
    Held (device_open fresh).2 ∧
    Free (device_release fresh).2 ∧
    (device_open (device_release fresh).2).1 = SUCCESS ∧
    Held (device_open (device_release fresh).2).2) :=
  ⟨Or.inr rfl, device_open_exclusive fresh (Or.inr rfl)⟩

/-! ## `device_read` on a stored report -/

theorem cstr_append_nul (a t : List Char) (ha : NUL ∉ a) : cstr (a ++ NUL :: t) = a := by
  induction a with
  | nil => simp [cstr]
  | cons c a ih =>
    have hc : c ≠ NUL := fun h => ha (by simp [h])
    have ha1 : NUL ∉ a := fun h => ha (by simp [h])
    have := ih ha1
    simp only [cstr] at this
    simp [cstr, List.takeWhile_cons, hc, this]

/-- A READ at cursor 0 of a buffer that holds the string `r`: with a working copy
it delivers all of `r`, zeroes the array and moves the cursor to the length. -/
theorem device_read_start (g : Globals) (r t : List Char) (len : Nat)
    (hmsg : g.msg = r ++ NUL :: t) (hr : r ≠ []) (hnul : NUL ∉ r) :
    device_read g len 0 true
      = some ((r.length : Int), r, { g with msg := List.replicate (BUF_LEN + 1) NUL },
          r.length) := by
  obtain ⟨c, r1, rfl⟩ := List.exists_cons_of_ne_nil hr
  have hc : c ≠ NUL := fun h => hnul (by simp [h])
  have h1 : g.msg.get? 0 = some c := by simp [hmsg]
  have h2 : strlen (g.msg.drop 0) = some (c :: r1).length := by
    rw [List.drop_zero, hmsg]
    exact strlen_append_nul _ _ hnul
  have h3 : (g.msg.drop 0).take (c :: r1).length = c :: r1 := by
    rw [List.drop_zero, hmsg]
    exact List.take_left _ _
  simp only [device_read, h1, h2, h3, hc, if_false, if_true, Nat.zero_add]

/-- A READ at cursor 0 of a buffer that holds the string `r`, when the copy to the
caller fails: it returns zero bytes and changes nothing. -/
theorem device_read_copy_fault (g : Globals) (r t : List Char) (len : Nat)
    (hmsg : g.msg = r ++ NUL :: t) (hr : r ≠ []) (hnul : NUL ∉ r) :
    device_read g len 0 false = some (0, [], g, 0) := by
  obtain ⟨c, r1, rfl⟩ := List.exists_cons_of_ne_nil hr
  have hc : c ≠ NUL := fun h => hnul (by simp [h])
  have h1 : g.msg.get? 0 = some c := by simp [hmsg]
  have h2 : strlen (g.msg.drop 0) = some (c :: r1).length := by
    rw [List.drop_zero, hmsg]
    exact strlen_append_nul _ _ hnul
  simp only [device_read, h1, h2, hc, if_false, Bool.false_eq_true]

/-- A READ with the cursor on the terminator of the string in the buffer returns
zero bytes, keeps the buffer and resets the cursor. -/
theorem device_read_end (g : Globals) (r t : List Char) (len : Nat) (copy_ok : Bool)
    (hmsg : g.msg = r ++ NUL :: t) :
    device_read g len r.length copy_ok = some (0, [], g, 0) := by
  have h1 : g.msg.get? r.length = some NUL := by
    rw [hmsg, List.get?_eq_getElem?, List.getElem?_append_right (le_refl _)]
    simp
  simp only [device_read, h1, if_true]

theorem length_fresh_msg : fresh.msg.length = BUF_LEN + 1 := by
  simp only [fresh, List.length_replicate]

/-- The text of the report for mask 0 on `host_min`. -/
theorem report_state_host_min : report_state host_min 0 = some (report_min, 7) := by
  decide!

theorem length_report_min : report_min.length = 191 := by
  decide!

theorem nulFree_metrics_state (h : Host) (mask_info : Nat) :
    NulFree (metrics_state h mask_info) := by
  have n0 : NulFree (some (text_hostname h, 0)) := by
    intro s hs
    cases hs
    exact nul_not_mem_text_hostname h
  have n1 := nulFree_text_metric (appends_get_kernel_info h).1 mask_info KFETCH_RELEASE _ n0
  have n2 := nulFree_text_metric (appends_get_CPU_info h).1 mask_info KFETCH_CPU_MODEL _ n1
  have n3 := nulFree_text_metric (appends_get_CPU_counts h).1 mask_info KFETCH_NUM_CPUS _ n2
  have n4 := nulFree_text_metric (appends_getMemoryInfo h).1 mask_info KFETCH_MEM _ n3
  have n5 := nulFree_text_metric (appends_get_process_info h).1 mask_info KFETCH_NUM_PROCS _ n4
  exact nulFree_text_metric (appends_get_uptime_info h).1 mask_info KFETCH_UPTIME _ n5

theorem nulFree_report_state (h : Host) (mask_info : Nat) :
    NulFree (report_state h mask_info) := by
  intro s hs
  unfold report_state at hs
  have n6 := nulFree_metrics_state h mask_info
  generalize metrics_state h mask_info = st6 at n6 hs
  cases st6 with
  | none => cases hs
  | some s6 =>
    cases hs
    exact nulFree_text_fill ROWS s6 (n6 s6 rfl)

/-- A WRITE whose mask was copied in and whose report fits the array. -/
theorem device_write_fits (h : Host) (g : Globals) (mask_info len off : Nat)
    (r : List Char) (row : Nat) (hr : report_state h mask_info = some (r, row))
    (hfit : r.length < g.msg.length) :
    device_write h g (some mask_info) len off
      = some ((len : Int), { g with msg := r ++ NUL :: g.msg.drop (r.length + 1) }, off) := by
  rw [device_write_eq, hr]
  simp only [stored, Option.some_bind, sprintf_at_zero, hfit, if_true, Option.map_some']

/-- What a WRITE that returns has done. -/
theorem device_write_some (h : Host) (g : Globals) (mask_info len off : Nat)
    (ret : Int) (g1 : Globals) (off1 : Nat)
    (hw : device_write h g (some mask_info) len off = some (ret, g1, off1)) :
    ∃ r row, report_state h mask_info = some (r, row) ∧ r.length < g.msg.length ∧
      ret = len ∧ g1 = { g with msg := r ++ NUL :: g.msg.drop (r.length + 1) } ∧ off1 = off := by
  rw [device_write_eq] at hw
  cases hr : report_state h mask_info with
  | none =>
    rw [hr] at hw
    cases hw
  | some s =>
    obtain ⟨r, row⟩ := s
    rw [hr] at hw
    simp only [stored, Option.some_bind, sprintf_at_zero] at hw
    by_cases hfit : r.length < g.msg.length
    · simp only [hfit, if_true, Option.map_some', Option.some.injEq, Prod.mk.injEq] at hw
      obtain ⟨h1, h2, h3⟩ := hw
      exact ⟨r, row, rfl, hfit, h1.symm, h2.symm, h3.symm⟩
    · simp only [hfit, if_false, Option.map_none'] at hw
      cases hw

/-- A WRITE never stores to `*off`, whether the copy of the mask succeeds or not. -/
theorem device_write_cursor (h : Host) (g : Globals) (buff : Option Nat) (len off : Nat)
    (ret : Int) (g1 : Globals) (off1 : Nat)
    (hw : device_write h g buff len off = some (ret, g1, off1)) : off1 = off := by
  cases buff with
  | none =>
    simp only [device_write, Option.some.injEq, Prod.mk.injEq] at hw
    exact hw.2.2.symm
  | some mask_info =>
    obtain ⟨_, _, _, _, _, _, h5⟩ := device_write_some h g mask_info len off ret g1 off1 hw
    exact h5

theorem device_write_host_min (off : Nat) :
    device_write host_min fresh (some 0) 4 off = some (4, wrote_min, off) := by
  have := device_write_fits host_min fresh 0 4 off report_min 7 report_state_host_min
    (by rw [length_fresh_msg, length_report_min]; decide)
  exact this

theorem nul_not_mem_report_min : NUL ∉ report_min := by
  decide!

theorem device_read_wrote_min_start :
    device_read wrote_min BUF_LEN 0 true = some (191, report_min, fresh, 191) := by
  have := device_read_start wrote_min report_min (fresh.msg.drop (report_min.length + 1))
    BUF_LEN rfl (by decide!) nul_not_mem_report_min
  rw [length_report_min] at this
  exact this

theorem device_read_wrote_min_end :
    device_read wrote_min BUF_LEN 191 true = some (0, [], wrote_min, 0) := by
  have := device_read_end wrote_min report_min (fresh.msg.drop (report_min.length + 1))
    BUF_LEN true rfl
  rw [length_report_min] at this
  exact this

/-! ## C2: draining -/

/-- C2, as stated, fails. From the fresh channel at cursor 0 the calls WRITE(0),
READ, WRITE(0) reach the buffer `wrote_min` with the cursor at 191, the length of
the report. The READ there finds the terminator, returns zero bytes and resets
the cursor; the READ after it, with no WRITE in between, returns the 191 bytes
of the report. A READ at cursor 0 whose copy to the caller fails returns zero
bytes as well, and the same READ follows it. -/
theorem drain_not_idempotent :
    Reach (fresh, 0) (wrote_min, 191) ∧
    device_read wrote_min BUF_LEN 191 true = some (0, [], wrote_min, 0) ∧
    device_read wrote_min BUF_LEN 0 false = some (0, [], wrote_min, 0) ∧
    device_read wrote_min BUF_LEN 0 true = some (191, report_min, fresh, 191) := by
  refine ⟨?_, device_read_wrote_min_end,
    device_read_copy_fault wrote_min report_min _ BUF_LEN rfl (by decide!)
      nul_not_mem_report_min, device_read_wrote_min_start⟩
  have s1 : Reach (fresh, 0) (wrote_min, 0) :=
    Reach.call _ _ Reach.start (Call.write host_min fresh 0 (some 0) 4 4 wrote_min 0
      (device_write_host_min 0))
  have s2 : Reach (fresh, 0) (fresh, 191) :=
    Reach.call _ _ s1 (Call.read wrote_min 0 BUF_LEN true 191 report_min fresh 191
      device_read_wrote_min_start)
  exact Reach.call _ _ s2 (Call.write host_min fresh 191 (some 0) 4 4 wrote_min 191
    (device_write_host_min 191))

theorem strlen_pos (c : Char) (m : List Char) (n : Nat) (hc : c ≠ NUL)
    (h : strlen (c :: m) = some n) : n ≠ 0 := by
  simp only [strlen, hc, if_false] at h
  cases hm : strlen m with
  | none =>
    rw [hm] at h
    cases h
  | some k =>
    rw [hm] at h
    cases h
    exact Nat.succ_ne_zero k

/-- A READ whose copy works returns zero bytes only on the terminator branch,
which keeps the buffer and resets the cursor. -/
theorem device_read_zero (g : Globals) (len off : Nat) (data : List Char)
    (g1 : Globals) (off1 : Nat)
    (h : device_read g len off true = some (0, data, g1, off1)) :
    g.msg.get? off = some NUL ∧ data = [] ∧ g1 = g ∧ off1 = 0 := by
  unfold device_read at h
  cases hget : g.msg.get? off with
  | none =>
    rw [hget] at h
    cases h
  | some c =>
    rw [hget] at h
    simp only at h
    by_cases hc : c = NUL
    · simp only [hc, if_true, Option.some.injEq, Prod.mk.injEq] at h
      exact ⟨by rw [hc], h.2.1.symm, h.2.2.1.symm, h.2.2.2.symm⟩
    · simp only [hc, if_false] at h
      cases hlen : strlen (g.msg.drop off) with
      | none =>
        rw [hlen] at h
        cases h
      | some n =>
        rw [hlen] at h
        simp only [if_true, Option.some.injEq, Prod.mk.injEq] at h
        have hn : n = 0 := by exact_mod_cast h.1
        have hd : g.msg.drop off = c :: g.msg.drop (off + 1) := by
          rw [List.get?_eq_getElem?] at hget
          obtain ⟨hlt, hc1⟩ := List.getElem?_eq_some_iff.1 hget
          rw [← hc1]
          exact List.drop_eq_getElem_cons hlt
        rw [hd] at hlen
        exact absurd hn (strlen_pos c _ n hc hlen)

/-- In a session that writes only at cursor 0, the cursor is 0 or the array is
zeroed. -/
theorem reachAtZero_inv (g0 : Globals) (s : Globals × Nat) (hs : ReachAtZero (g0, 0) s) :
    s.2 = 0 ∨ s.1.msg = List.replicate (BUF_LEN + 1) NUL := by
  induction hs with
  | start => exact Or.inl rfl
  | call s t _ hst ih =>
    cases hst with
    | write h g buff len r g1 off1 hw =>
      exact Or.inl (device_write_cursor h g buff len 0 r g1 off1 hw)
    | read g off len copy_ok r data g1 off1 hr =>
      unfold device_read at hr
      cases hget : g.msg.get? off with
      | none =>
        rw [hget] at hr
        cases hr
      | some c =>
        rw [hget] at hr
        simp only at hr
        by_cases hc : c = NUL
        · simp only [hc, if_true, Option.some.injEq, Prod.mk.injEq] at hr
          exact Or.inl hr.2.2.2.symm
        · simp only [hc, if_false] at hr
          cases hlen : strlen (g.msg.drop off) with
          | none =>
            rw [hlen] at hr
            cases hr
          | some n =>
            rw [hlen] at hr
            cases copy_ok with
            | true =>
              simp only [if_true, Option.some.injEq, Prod.mk.injEq] at hr
              right
              rw [← hr.2.2.1]
            | false =>
              simp only [Bool.false_eq_true, if_false, Option.some.injEq,
                Prod.mk.injEq] at hr
              rw [← hr.2.2.1, ← hr.2.2.2]
              exact ih

theorem drain_at_zero (g0 : Globals) (s : Globals × Nat) (hs : ReachAtZero (g0, 0) s)
    (len1 : Nat) (data : List Char) (s1 : Globals × Nat)
    (h1 : device_read s.1 len1 s.2 true = some (0, data, s1)) (len2 : Nat) (copy_ok : Bool) :
    data = [] ∧ s1 = (s.1, 0) ∧ device_read s1.1 len2 s1.2 copy_ok = some (0, [], s1.1, 0) := by
  obtain ⟨g1, off1⟩ := s1
  obtain ⟨hget, hdata, hg1, hoff1⟩ := device_read_zero s.1 len1 s.2 data g1 off1 h1
  subst hg1 hoff1
  refine ⟨hdata, rfl, ?_⟩
  have h0 : s.1.msg.get? 0 = some NUL := by
    rcases reachAtZero_inv g0 s hs with h | h
    · rw [← h]
      exact hget
    · rw [h]
      simp [List.replicate_succ]
  simp only [device_read, h0, if_true]

theorem reachAtZero_wrote_min : ReachAtZero (fresh, 0) (fresh, 191) :=
  ReachAtZero.call _ _
    (ReachAtZero.call _ _ ReachAtZero.start
      (CallAtZero.write host_min fresh (some 0) 4 4 wrote_min 0 (device_write_host_min 0)))
    (CallAtZero.read wrote_min 0 BUF_LEN true 191 report_min fresh 191
      device_read_wrote_min_start)

theorem device_read_fresh (len off : Nat) (copy_ok : Bool) (hoff : off ≤ BUF_LEN) :
    device_read fresh len off copy_ok = some (0, [], fresh, 0) := by
  have h0 : fresh.msg.get? off = some NUL := by
    rw [List.get?_eq_getElem?]
    simp only [fresh, List.getElem?_replicate]
    rw [if_pos (by omega)]
  simp only [device_read, h0, if_true]

/-- C2, amended. In every session state reached after an OPEN (cursor 0, any
buffer content) by READ calls and by WRITE calls that are issued while the cursor
is 0, once a READ whose copy to the caller works has returned zero bytes (it
found the terminator, delivered nothing and reset the cursor), the next READ
with no WRITE in between returns zero bytes as well, whatever its copy does. -/
theorem drain_idempotent_at_zero (g0 : Globals) (s : Globals × Nat)
    (hs : ReachAtZero (g0, 0) s) (len1 : Nat) (data : List Char) (s1 : Globals × Nat)
    (h1 : device_read s.1 len1 s.2 true = some (0, data, s1)) (len2 : Nat) (copy_ok : Bool) :
    data = [] ∧ s1 = (s.1, 0) ∧ device_read s1.1 len2 s1.2 copy_ok = some (0, [], s1.1, 0) :=
  drain_at_zero g0 s hs len1 data s1 h1 len2 copy_ok

/-- The statement of `drain_idempotent_at_zero` after WRITE(0) and a READ that
delivered the report: the second READ returns zero bytes, and so does the third. -/
theorem drain_idempotent_at_zero_witness :
    ReachAtZero (fresh, 0) (fresh, 191) ∧
    device_read fresh BUF_LEN 191 true = some (0, [], (fresh, 0)) ∧
    (([] : List Char) = [] ∧ (fresh, 0) = (fresh, 0) ∧
      device_read fresh BUF_LEN 0 true = some (0, [], fresh, 0)) :=
  ⟨reachAtZero_wrote_min, device_read_fresh BUF_LEN 191 true (by decide),
    drain_idempotent_at_zero fresh (fresh, 191) reachAtZero_wrote_min BUF_LEN [] (fresh, 0)
      (device_read_fresh BUF_LEN 191 true (by decide)) BUF_LEN true⟩

/-! ## C3: the cursor after a WRITE -/

/-- C3, as stated, fails. A WRITE issued with the cursor at 5 succeeds and leaves the
cursor at 5, not at 0. -/
theorem write_keeps_cursor_five :
    device_write host_min fresh (some 0) 4 5 = some (4, wrote_min, 5) :=
  device_write_host_min 5

/-- C3, amended. For every mask and every session state, a successful WRITE leaves
the read cursor where it was, so that the next READ starts at that offset of the
array; the cursor is 0 afterwards exactly when it was 0 before. `device_write`
never stores to `*off`. -/
theorem write_keeps_cursor (h : Host) (g : Globals) (mask_info len off : Nat)
    (ret : Int) (g1 : Globals) (off1 : Nat)
    (hw : device_write h g (some mask_info) len off = some (ret, g1, off1)) :
    off1 = off ∧ (off1 = 0 ↔ off = 0) := by
  have := device_write_cursor h g (some mask_info) len off ret g1 off1 hw
  subst this
  exact ⟨rfl, Iff.rfl⟩

/-- The statement of `write_keeps_cursor` for a WRITE at cursor 5. -/
theorem write_keeps_cursor_witness :
    device_write host_min fresh (some 0) 4 5 = some (4, wrote_min, 5) ∧
    ((5 : Nat) = 5 ∧ ((5 : Nat) = 0 ↔ (5 : Nat) = 0)) :=
  ⟨device_write_host_min 5,
    write_keeps_cursor host_min fresh 0 4 5 4 wrote_min 5 (device_write_host_min 5)⟩

/-! ## C4: WRITE, then READ until zero bytes -/

theorem prefix_text_banner (st : List Char × Nat) : st.1 <+: (text_banner st).1 := by
  unfold text_banner
  split
  · exact List.prefix_append _ _
  · exact List.prefix_refl _

theorem prefix_text_metric (a : List Char) (mask_info bit : Nat) (e : Option (List Char))
    (st : Option (List Char × Nat)) (hst : ∀ s, st = some s → a <+: s.1) :
    ∀ s, st.bind (text_metric mask_info bit e) = some s → a <+: s.1 := by
  intro s hs
  cases st with
  | none => cases hs
  | some s0 =>
    have h0 := hst s0 rfl
    simp only [Option.some_bind, text_metric] at hs
    split at hs
    · cases e with
      | none => cases hs
      | some t =>
        cases hs
        exact (h0.trans (prefix_text_banner s0)).trans (List.prefix_append _ _)
    · cases hs
      exact h0

theorem prefix_text_fill (fuel : Nat) (st : List Char × Nat) :
    st.1 <+: (text_fill fuel st).1 := by
  induction fuel generalizing st with
  | zero => exact List.prefix_refl _
  | succ fuel ih =>
    unfold text_fill
    split
    · exact ((prefix_text_banner st).trans (List.prefix_append _ _)).trans
        (ih ((text_banner st).1 ++ "\n".toList, (text_banner st).2))
    · exact List.prefix_refl _

/-- Every report starts with the hostname block. -/
theorem prefix_report_state (h : Host) (mask_info : Nat) (s : List Char × Nat)
    (hs : report_state h mask_info = some s) : text_hostname h <+: s.1 := by
  have p0 : ∀ s, (some (text_hostname h, 0) : Option (List Char × Nat)) = some s →
      text_hostname h <+: s.1 := by
    intro s hs
    cases hs
    exact List.prefix_refl _
  have p1 := prefix_text_metric _ mask_info KFETCH_RELEASE (some (text_kernel_info h)) _ p0
  have p2 := prefix_text_metric _ mask_info KFETCH_CPU_MODEL (text_CPU_info h) _ p1
  have p3 := prefix_text_metric _ mask_info KFETCH_NUM_CPUS (text_CPU_counts h) _ p2
  have p4 := prefix_text_metric _ mask_info KFETCH_MEM (text_MemoryInfo h) _ p3
  have p5 := prefix_text_metric _ mask_info KFETCH_NUM_PROCS (some (text_process_info h)) _ p4
  have p6 := prefix_text_metric _ mask_info KFETCH_UPTIME (text_uptime_info h) _ p5
  change ∀ s, metrics_state h mask_info = some s → text_hostname h <+: s.1 at p6
  unfold report_state at hs
  generalize metrics_state h mask_info = st6 at p6 hs
  cases st6 with
  | none => cases hs
  | some s6 =>
    cases hs
    exact (p6 s6 rfl).trans (prefix_text_fill ROWS s6)

theorem text_hostname_ne_nil (h : Host) : text_hostname h ≠ [] := by
  intro hn
  have := congrArg List.length hn
  simp [text_hostname] at this

theorem write_then_reads (h : Host) (g : Globals) (mask_info len : Nat)
    (hlen : g.msg.length = BUF_LEN + 1) (ret : Int) (g1 : Globals) (off1 : Nat)
    (hw : device_write h g (some mask_info) len 0 = some (ret, g1, off1))
    (len1 len2 : Nat) (copy_ok : Bool) :
    ∃ r tail, report h mask_info = some r ∧ r = text_hostname h ++ tail ∧ off1 = 0 ∧
      r.length ≠ 0 ∧
      device_read g1 len1 off1 true
        = some ((r.length : Int), r, { g1 with msg := List.replicate (BUF_LEN + 1) NUL },
            r.length) ∧
      device_read { g1 with msg := List.replicate (BUF_LEN + 1) NUL } len2 r.length copy_ok
        = some (0, [], { g1 with msg := List.replicate (BUF_LEN + 1) NUL }, 0) := by
  obtain ⟨r, row, hr, hfit, _, hg1, hoff⟩ := device_write_some h g mask_info len 0 ret g1 off1 hw
  obtain ⟨tail, htail⟩ := prefix_report_state h mask_info (r, row) hr
  have hnul : NUL ∉ r := nulFree_report_state h mask_info (r, row) hr
  have hne : r ≠ [] := by
    intro hn
    rw [hn] at htail
    exact text_hostname_ne_nil h (List.append_eq_nil.1 htail).1
  have hmsg : g1.msg = r ++ NUL :: g.msg.drop (r.length + 1) := by rw [hg1]
  refine ⟨r, tail, by simp [report, hr], htail.symm, hoff, ?_, ?_, ?_⟩
  · exact fun h0 => hne (List.length_eq_zero.1 h0)
  · rw [hoff]
    exact device_read_start g1 r _ len1 hmsg hne hnul
  · have h0 : (List.replicate (BUF_LEN + 1) NUL).get? r.length = some NUL := by
      rw [List.get?_eq_getElem?, List.getElem?_replicate, if_pos (by omega)]
    simp only [device_read, h0, if_true]

/-- After WRITE(0) at cursor 0 stored the 191 bytes of the report, a READ whose copy
to the caller fails returns zero bytes and leaves the report in the array. -/
theorem drain_empty_on_copy_fault :
    device_write host_min fresh (some 0) 4 0 = some (4, wrote_min, 0) ∧
    report host_min 0 = some report_min ∧ report_min.length = 191 ∧
    device_read wrote_min BUF_LEN 0 false = some (0, [], wrote_min, 0) := by
  exact ⟨device_write_host_min 0, by simp [report, report_state_host_min], length_report_min,
    device_read_copy_fault wrote_min report_min _ BUF_LEN rfl (by decide!)
      nul_not_mem_report_min⟩

/-- C4. For every mask and all provider data, in a session whose cursor is 0, after
WRITE(M) (the hypothesis `hw` says that the call returns, that is, that no store
went outside the array): the report composed for M begins with the hostname
block and is not empty; the first READ delivers the whole report, whatever
length is asked for, and zeroes the array; the second READ returns zero bytes.
So the loop that reads until zero bytes ends with its second READ and the bytes
it delivered are exactly the report composed for M. -/
theorem write_then_drain (h : Host) (g : Globals) (mask_info len : Nat)
    (hlen : g.msg.length = BUF_LEN + 1) (ret : Int) (g1 : Globals) (off1 : Nat)
    (hw : device_write h g (some mask_info) len 0 = some (ret, g1, off1))
    (len1 len2 : Nat) (copy_ok : Bool) :
    ∃ r tail, report h mask_info = some r ∧ r = text_hostname h ++ tail ∧ off1 = 0 ∧
      r.length ≠ 0 ∧
      device_read g1 len1 off1 true
        = some ((r.length : Int), r, { g1 with msg := List.replicate (BUF_LEN + 1) NUL },
            r.length) ∧
      device_read { g1 with msg := List.replicate (BUF_LEN + 1) NUL } len2 r.length copy_ok
        = some (0, [], { g1 with msg := List.replicate (BUF_LEN + 1) NUL }, 0) :=
  write_then_reads h g mask_info len hlen ret g1 off1 hw len1 len2 copy_ok

/-- The statement of `write_then_drain` for WRITE(0) on the fresh channel. -/
theorem write_then_drain_witness :
    fresh.msg.length = BUF_LEN + 1 ∧
    device_write host_min fresh (some 0) 4 0 = some (4, wrote_min, 0) ∧
    ∃ r tail, report host_min 0 = some r ∧ r = text_hostname host_min ++ tail ∧ 0 = 0 ∧
      r.length ≠ 0 ∧
      device_read wrote_min BUF_LEN 0 true
        = some ((r.length : Int), r,
            { wrote_min with msg := List.replicate (BUF_LEN + 1) NUL }, r.length) ∧
      device_read { wrote_min with msg := List.replicate (BUF_LEN + 1) NUL } BUF_LEN
          r.length true
        = some (0, [], { wrote_min with msg := List.replicate (BUF_LEN + 1) NUL }, 0) :=
  ⟨length_fresh_msg, device_write_host_min 0,
    write_then_drain host_min fresh 0 4 length_fresh_msg 4 wrote_min 0
      (device_write_host_min 0) BUF_LEN BUF_LEN true⟩

/-! ## C5: the seven banner rows -/

theorem banner_rows_append (i : Nat) (ts : List (List Char)) (t : List Char) :
    banner_rows i (ts ++ [t])
      = banner_rows i ts ++ (graphic.getD (i + ts.length) [] ++ t) := by
  induction ts generalizing i with
  | nil => simp [banner_rows]
  | cons u ts ih =>
    have hi := ih (i + 1)
    rw [show i + 1 + ts.length = i + (ts.length + 1) by omega] at hi
    show banner_rows i (u :: (ts ++ [t])) = _
    simp only [banner_rows, hi, List.length_cons, List.append_assoc]

theorem laid_text_metric (h : Host) (n : Nat) (hn : n < ROWS) (mask_info bit : Nat)
    (e : Option (List Char)) (st : Option (List Char × Nat))
    (hst : ∀ s, st = some s → s.2 ≤ n ∧
      ∃ ts : List (List Char), ts.length = s.2 ∧ s.1 = text_hostname h ++ banner_rows 0 ts) :
    ∀ s, st.bind (text_metric mask_info bit e) = some s → s.2 ≤ n + 1 ∧
      ∃ ts : List (List Char), ts.length = s.2 ∧ s.1 = text_hostname h ++ banner_rows 0 ts := by
  intro s hs
  cases st with
  | none => cases hs
  | some s0 =>
    obtain ⟨hle, ts, hts, htext⟩ := hst s0 rfl
    simp only [Option.some_bind, text_metric] at hs
    split at hs
    · cases e with
      | none => cases hs
      | some t =>
        cases hs
        have hlt : s0.2 < ROWS := by omega
        simp only [text_banner, hlt, if_true]
        refine ⟨by omega, ts ++ [t], by simp [hts], ?_⟩
        rw [banner_rows_append, htext, hts]
        simp
    · cases hs
      exact ⟨by omega, ts, hts, htext⟩

theorem laid_text_fill (h : Host) (fuel : Nat) (st : List Char × Nat) (hle : st.2 ≤ ROWS)
    (hfuel : ROWS - st.2 ≤ fuel)
    (hst : ∃ ts : List (List Char), ts.length = st.2 ∧
      st.1 = text_hostname h ++ banner_rows 0 ts) :
    (text_fill fuel st).2 = ROWS ∧
    ∃ ts : List (List Char), ts.length = ROWS ∧
      (text_fill fuel st).1 = text_hostname h ++ banner_rows 0 ts := by
  induction fuel generalizing st with
  | zero =>
    have : st.2 = ROWS := by omega
    obtain ⟨ts, hts, htext⟩ := hst
    exact ⟨this, ts, by rw [hts, this], htext⟩
  | succ fuel ih =>
    obtain ⟨ts, hts, htext⟩ := hst
    unfold text_fill
    by_cases hlt : st.2 < ROWS
    · simp only [hlt, if_true, text_banner]
      apply ih
      · exact hlt
      · simp only
        omega
      · refine ⟨ts ++ ["\n".toList], by simp [hts], ?_⟩
        rw [banner_rows_append, htext, hts]
        simp
    · simp only [hlt, if_false]
      have : st.2 = ROWS := by omega
      exact ⟨this, ts, by rw [hts, this], htext⟩

/-- Every report is the hostname block followed by the seven rows of `graphic` in
order, each followed by a text. -/
theorem laid_report_state (h : Host) (mask_info : Nat) (s : List Char × Nat)
    (hs : report_state h mask_info = some s) :
    s.2 = ROWS ∧ ∃ ts : List (List Char), ts.length = ROWS ∧
      s.1 = text_hostname h ++ banner_rows 0 ts := by
  have p0 : ∀ s, (some (text_hostname h, 0) : Option (List Char × Nat)) = some s →
      s.2 ≤ 0 ∧ ∃ ts : List (List Char), ts.length = s.2 ∧
        s.1 = text_hostname h ++ banner_rows 0 ts := by
    intro s hs
    cases hs
    exact ⟨le_refl _, [], rfl, by simp [banner_rows]⟩
  have p1 := laid_text_metric h 0 (by decide) mask_info KFETCH_RELEASE
    (some (text_kernel_info h)) _ p0
  have p2 := laid_text_metric h 1 (by decide) mask_info KFETCH_CPU_MODEL (text_CPU_info h) _ p1
  have p3 := laid_text_metric h 2 (by decide) mask_info KFETCH_NUM_CPUS (text_CPU_counts h) _ p2
  have p4 := laid_text_metric h 3 (by decide) mask_info KFETCH_MEM (text_MemoryInfo h) _ p3
  have p5 := laid_text_metric h 4 (by decide) mask_info KFETCH_NUM_PROCS
    (some (text_process_info h)) _ p4
  have p6 := laid_text_metric h 5 (by decide) mask_info KFETCH_UPTIME (text_uptime_info h) _ p5
  change ∀ s, metrics_state h mask_info = some s → _ at p6
  unfold report_state at hs
  generalize metrics_state h mask_info = st6 at p6 hs
  cases st6 with
  | none => cases hs
  | some s6 =>
    cases hs
    obtain ⟨hle, hts⟩ := p6 s6 rfl
    exact laid_text_fill h ROWS s6 (by simp only [ROWS]; omega) (by omega) hts

/-- C5. For every mask (unknown bits included) and every provider outcome, the report
that a completed `device_write` stores is the hostname block followed by seven
pieces: row 0 of `graphic` and a text, row 1 and a text, up to row 6 and a text.
The row counter `currentRow` ends at 7: `write_banner` emits each of the seven
rows once, in order. -/
theorem seven_rows_per_write (h : Host) (g : Globals) (mask_info len off : Nat)
    (ret : Int) (g1 : Globals) (off1 : Nat)
    (hw : device_write h g (some mask_info) len off = some (ret, g1, off1)) :
    ∃ ts : List (List Char), ts.length = 7 ∧
      report_state h mask_info = some (text_hostname h ++ banner_rows 0 ts, 7) ∧
      cstr g1.msg = text_hostname h ++ banner_rows 0 ts := by
  obtain ⟨r, row, hr, _, _, hg1, _⟩ := device_write_some h g mask_info len off ret g1 off1 hw
  obtain ⟨hrow, ts, hts, htext⟩ := laid_report_state h mask_info (r, row) hr
  have hnul : NUL ∉ r := nulFree_report_state h mask_info (r, row) hr
  simp only at hrow htext
  refine ⟨ts, hts, ?_, ?_⟩
  · rw [hr, htext, hrow]
    rfl
  · rw [hg1, ← htext]
    exact cstr_append_nul r _ hnul

/-- The statement of `seven_rows_per_write` for WRITE(0) on the fresh channel. -/
theorem seven_rows_per_write_witness :
    device_write host_min fresh (some 0) 4 0 = some (4, wrote_min, 0) ∧
    ∃ ts : List (List Char), ts.length = 7 ∧
      report_state host_min 0 = some (text_hostname host_min ++ banner_rows 0 ts, 7) ∧
      cstr wrote_min.msg = text_hostname host_min ++ banner_rows 0 ts :=
  ⟨device_write_host_min 0,
    seven_rows_per_write host_min fresh 0 4 0 4 wrote_min 0 (device_write_host_min 0)⟩

/-! ## C6: the mask with only the uptime bit -/

theorem report_state_uptime_only (h : Host) (file : List Char) (vals : List Nat)
    (hup : h.uptime = some file) (hscan : sscanf (kernel_read file 512) "%lu" = some vals) :
    report_state h KFETCH_UPTIME = some
      (text_hostname h ++ graphic.getD 0 []
        ++ text_uptime ((vals.getD 0 0 / 60) % 2 ^ 32)
        ++ banner_rows 1 (List.replicate 6 "\n".toList), 7) := by
  have e1 : KFETCH_UPTIME &&& KFETCH_RELEASE = 0 := by decide
  have e2 : KFETCH_UPTIME &&& KFETCH_CPU_MODEL = 0 := by decide
  have e3 : KFETCH_UPTIME &&& KFETCH_NUM_CPUS = 0 := by decide
  have e4 : KFETCH_UPTIME &&& KFETCH_MEM = 0 := by decide
  have e5 : KFETCH_UPTIME &&& KFETCH_NUM_PROCS = 0 := by decide
  have e6 : KFETCH_UPTIME &&& KFETCH_UPTIME ≠ 0 := by decide
  have hu : text_uptime_info h = some (text_uptime ((vals.getD 0 0 / 60) % 2 ^ 32)) := by
    simp only [text_uptime_info, hup, hscan, Option.map_some']
  simp only [report_state, metrics_state, text_metric, e1, e2, e3, e4, e5, hu, ne_eq,
    not_true_eq_false, if_false, Option.some_bind, if_pos e6, Option.map_some', text_banner]
  simp [ROWS, text_fill, text_banner, banner_rows, List.replicate]

theorem length_unpaired_rows (rs : List (List Char)) (hrs : ∀ r ∈ rs, r ∈ graphic) :
    ((rs.map (fun r => r ++ "\n".toList)).flatten).length = 20 * rs.length := by
  induction rs with
  | nil => rfl
  | cons r rs ih =>
    have h19 : ∀ x ∈ graphic, x.length = 19 := by decide
    have hr := h19 r (hrs r (List.mem_cons_self _ _))
    have := ih (fun x hx => hrs x (List.mem_cons_of_mem _ hx))
    simp only [List.map_cons, List.flatten_cons, List.length_append, List.length_cons, this, hr]
    simp only [String.toList, List.length_cons, List.length_nil]
    omega

theorem report_state_host_up : report_state host_up KFETCH_UPTIME = some (report_up, 7) := by
  decide!

/-- C6, as stated, fails. On `host_up` the WRITE with only the uptime bit stores
`report_up`, and `report_up` is not the hostname block, row 0 with the uptime
line and then five rows each followed by a newline, whichever five rows of
`graphic` these are: six rows follow the uptime line. -/
theorem uptime_only_not_five_rows :
    device_write host_up fresh (some KFETCH_UPTIME) 4 0
      = some (4, { fresh with msg := report_up ++ NUL :: fresh.msg.drop (report_up.length + 1) },
          0) ∧
    ¬ ∃ rs : List (List Char), rs.length = 5 ∧ (∀ r ∈ rs, r ∈ graphic) ∧
      report_up = text_hostname host_up ++ graphic.getD 0 [] ++ text_uptime 1
        ++ (rs.map (fun r => r ++ "\n".toList)).flatten := by
  refine ⟨device_write_fits host_up fresh KFETCH_UPTIME 4 0 report_up 7 report_state_host_up
    (by rw [length_fresh_msg]; decide!), ?_⟩
  rintro ⟨rs, h5, hrs, heq⟩
  have hl := congrArg List.length heq
  rw [List.length_append, length_unpaired_rows rs hrs, h5] at hl
  revert hl
  decide!

/-- C6, amended. For the mask with only bit 32 (uptime) set and an uptime source
that is readable (the file opens, and `sscanf` stays inside its snapshot), the
composed report is the hostname block, then row 0 paired with the uptime line,
then the 6 rows 1 to 6 with no paired text, each followed by a newline: 7 rows
in all. `device_write` stores this text. -/
theorem uptime_only_report (h : Host) (file : List Char) (vals : List Nat)
    (hup : h.uptime = some file) (hscan : sscanf (kernel_read file 512) "%lu" = some vals)
    (g : Globals) (len off : Nat) :
    report h KFETCH_UPTIME = some
      (text_hostname h ++ graphic.getD 0 []
        ++ text_uptime ((vals.getD 0 0 / 60) % 2 ^ 32)
        ++ banner_rows 1 (List.replicate 6 "\n".toList)) ∧
    device_write h g (some KFETCH_UPTIME) len off
      = (sprintf_at g.msg 0
          (text_hostname h ++ graphic.getD 0 []
            ++ text_uptime ((vals.getD 0 0 / 60) % 2 ^ 32)
            ++ banner_rows 1 (List.replicate 6 "\n".toList))).map
          (fun m => ((len : Int), { g with msg := m }, off)) := by
  have hr := report_state_uptime_only h file vals hup hscan
  refine ⟨by simp only [report, hr, Option.map_some'], ?_⟩
  rw [device_write_eq, hr]
  simp only [stored, Option.some_bind, Option.map_map]
  rfl

/-- The statement of `uptime_only_report` on `host_up`, whose uptime file reads 60
seconds. -/
theorem uptime_only_report_witness :
    host_up.uptime = some "60.00 1.00\n".toList ∧
    sscanf (kernel_read "60.00 1.00\n".toList 512) "%lu" = some [60] ∧
    (report host_up KFETCH_UPTIME = some
      (text_hostname host_up ++ graphic.getD 0 []
        ++ text_uptime ((([60] : List Nat).getD 0 0 / 60) % 2 ^ 32)
        ++ banner_rows 1 (List.replicate 6 "\n".toList)) ∧
    device_write host_up fresh (some KFETCH_UPTIME) 4 0
      = (sprintf_at fresh.msg 0
          (text_hostname host_up ++ graphic.getD 0 []
            ++ text_uptime ((([60] : List Nat).getD 0 0 / 60) % 2 ^ 32)
            ++ banner_rows 1 (List.replicate 6 "\n".toList))).map
          (fun m => (((4 : Nat) : Int), { fresh with msg := m }, 0))) :=
  ⟨rfl, by decide!,
    uptime_only_report host_up "60.00 1.00\n".toList [60] rfl (by decide!) fresh 4 0⟩

/-! ## C7: unknown mask bits -/

theorem metric_mask (mask_info bit : Nat) (hbit : 63 &&& bit = bit)
    (P : List Char → Option (List Char)) :
    metric (mask_info &&& 63) bit P = metric mask_info bit P := by
  funext st
  simp only [metric, Nat.land_assoc, hbit]

/-- C7. With the bits 1, 2, 4, 8, 16, 32 of the six metrics, for every mask `M` and
all provider data WRITE(M) has the outcome of WRITE(M AND 63): the same return
value and the same stored report. No bit of the mask makes it an error: where
the WRITE completes it returns the length `len` the caller passed, and it
completes with the report of `M AND 63` stored from the first byte of `msg` on
wherever that report is defined and fits the array. -/
theorem unknown_bits_ignored (h : Host) (g : Globals) (M len off : Nat) :
    device_write h g (some M) len off = device_write h g (some (M &&& 63)) len off ∧
    (device_write h g (some M) len off).map (fun out => out.1)
      = (device_write h g (some M) len off).map (fun _ => (len : Int)) ∧
    device_write h g (some M) len off
      = ((report_state h (M &&& 63)).bind fun s =>
          (sprintf_at g.msg 0 s.1).map fun m => (m, s.2)).map
          (fun s => ((len : Int), { g with msg := s.1 }, off)) := by
  have h1 : device_write h g (some M) len off
      = device_write h g (some (M &&& 63)) len off := by
    simp only [device_write]
    rw [metric_mask M KFETCH_RELEASE (by decide), metric_mask M KFETCH_CPU_MODEL (by decide),
      metric_mask M KFETCH_NUM_CPUS (by decide), metric_mask M KFETCH_MEM (by decide),
      metric_mask M KFETCH_NUM_PROCS (by decide), metric_mask M KFETCH_UPTIME (by decide)]
  refine ⟨h1, ?_, ?_⟩
  · rw [device_write_eq]
    simp only [Option.map_map]
    rfl
  · rw [h1, device_write_eq]
    rfl

/-! ## Decimal text and `simple_strtoull` -/

theorem utoa_aux_acc (fuel n : Nat) (acc : List Char) :
    utoa_aux fuel n acc = utoa_aux fuel n [] ++ acc := by
  induction fuel generalizing n acc with
  | zero => rfl
  | succ fuel ih =>
    unfold utoa_aux
    split
    · rfl
    · rw [ih, ih (n / 10) [digitChar (n % 10)]]
      simp

theorem utoa_aux_fuel (fuel1 fuel2 n : Nat) (h1 : n < fuel1) (h2 : n < fuel2) :
    utoa_aux fuel1 n [] = utoa_aux fuel2 n [] := by
  induction fuel1 generalizing fuel2 n with
  | zero => omega
  | succ fuel1 ih =>
    cases fuel2 with
    | zero => omega
    | succ fuel2 =>
      unfold utoa_aux
      split
      · rfl
      · rw [utoa_aux_acc fuel1, utoa_aux_acc fuel2, ih fuel2 (n / 10) (by omega) (by omega)]

theorem utoa_eq (n : Nat) :
    utoa n = if n < 10 then [digitChar n] else utoa (n / 10) ++ [digitChar (n % 10)] := by
  unfold utoa
  rw [utoa_aux]
  split
  · rfl
  · rw [utoa_aux_acc, utoa_aux_fuel n (n / 10 + 1) (n / 10) (by omega) (by omega)]

theorem utoa_ne_nil (n : Nat) : utoa n ≠ [] := by
  rw [utoa_eq]
  split <;> simp

theorem simple_strtoull_append (a b : List Char) (acc : Nat)
    (ha : ∀ c ∈ a, isdigit c = true) :
    simple_strtoull (a ++ b) acc
      = simple_strtoull b (a.foldl (fun r c => (r * 10 + (c.toNat - 48)) % 2 ^ 64) acc) := by
  induction a generalizing acc with
  | nil => rfl
  | cons c a ih =>
    have hc := ha c (List.mem_cons_self _ _)
    simp only [List.cons_append, simple_strtoull, hc, if_true, List.foldl_cons]
    exact ih _ (fun x hx => ha x (List.mem_cons_of_mem _ hx))

theorem foldl_utoa (n : Nat) :
    (utoa n).foldl (fun r c => (r * 10 + (c.toNat - 48)) % 2 ^ 64) 0 = n % 2 ^ 64 := by
  induction n using Nat.strong_induction_on with
  | _ n ih =>
    rw [utoa_eq]
    split
    · rename_i hn
      simp only [List.foldl_cons, List.foldl_nil, toNat_digitChar n hn]
      simp
    · rename_i hn
      have hd : n % 10 < 10 := Nat.mod_lt _ (by decide)
      rw [List.foldl_append, ih (n / 10) (by omega)]
      simp only [List.foldl_cons, List.foldl_nil, toNat_digitChar _ hd]
      norm_num
      omega

theorem simple_strtoull_utoa_append (n : Nat) (c : Char) (rest : List Char)
    (hc : isdigit c = false) :
    simple_strtoull (utoa n ++ c :: rest) 0 = some (n % 2 ^ 64, c :: rest) := by
  rw [simple_strtoull_append _ _ _ (fun c hc => isdigit_of_mem_utoa _ c hc), foldl_utoa]
  simp only [simple_strtoull, hc, Bool.false_eq_true, if_false]
/-! ## `sscanf` on the memory file -/

theorem isspace_of_isdigit (c : Char) (hc : isdigit c = true) : isspace c = false := by
  simp only [isdigit, Bool.and_eq_true, decide_eq_true_eq] at hc
  simp only [isspace, Bool.or_eq_false_iff, Bool.and_eq_false_iff, decide_eq_false_iff_not,
    beq_eq_false_iff_ne, ne_eq]
  omega

theorem skip_spaces_append (ws rest : List Char) (hws : ∀ c ∈ ws, isspace c = true) :
    skip_spaces (ws ++ rest) = skip_spaces rest := by
  induction ws with
  | nil => rfl
  | cons c ws ih =>
    have hc := hws c (List.mem_cons_self _ _)
    simp only [List.cons_append, skip_spaces, hc, if_true]
    exact ih (fun x hx => hws x (List.mem_cons_of_mem _ hx))

theorem skip_spaces_utoa (n : Nat) (rest : List Char) :
    skip_spaces (utoa n ++ rest) = some (utoa n ++ rest) := by
  obtain ⟨d, ds, hd⟩ := List.exists_cons_of_ne_nil (utoa_ne_nil n)
  have hdig : isdigit d = true := isdigit_of_mem_utoa n d (by rw [hd]; exact List.mem_cons_self _ _)
  rw [hd]
  simp [skip_spaces, isspace_of_isdigit d hdig]

theorem scan_lits (cs : List Char) (ds : List Dir) (str : List Char) :
    scan (cs.map Dir.lit ++ ds) (cs ++ str) = scan ds str := by
  induction cs with
  | nil => rfl
  | cons c cs ih => simpa [scan] using ih

theorem scan_space (ws : List Char) (ds : List Dir) (str : List Char)
    (hws : ∀ c ∈ ws, isspace c = true) :
    scan (Dir.space :: ds) (ws ++ str) = (skip_spaces str).bind fun str1 => scan ds str1 := by
  simp only [scan, skip_spaces_append ws str hws]

theorem scan_ull (n : Nat) (ds : List Dir) (c : Char) (rest : List Char)
    (hc : isdigit c = false) :
    scan (Dir.ull :: ds) (utoa n ++ c :: rest)
      = (scan ds (c :: rest)).map fun vals => (n % 2 ^ 64) :: vals := by
  obtain ⟨d, s, hd⟩ := List.exists_cons_of_ne_nil (utoa_ne_nil n)
  have hdig : isdigit d = true := isdigit_of_mem_utoa n d (by rw [hd]; exact List.mem_cons_self _ _)
  have hnul : d ≠ NUL := by
    rintro rfl
    revert hdig
    decide
  have hskip := skip_spaces_utoa n (c :: rest)
  have hval := simple_strtoull_utoa_append n c rest hc
  rw [hd] at hskip hval ⊢
  simp only [List.cons_append] at hskip hval ⊢
  simp only [scan, hskip, hdig, hnul, if_true, if_false, hval, Option.some_bind]

theorem fmt_dirs_meminfo :
    fmt_dirs "MemTotal: %llu kB\nMemFree: %llu kB".toList
      = "MemTotal:".toList.map Dir.lit ++ (Dir.space :: Dir.ull :: Dir.space ::
          ("kB".toList.map Dir.lit ++ (Dir.space :: ("MemFree:".toList.map Dir.lit ++
            (Dir.space :: Dir.ull :: Dir.space :: "kB".toList.map Dir.lit))))) := by
  decide

/-- The two values `sscanf` reads from an array that starts with the two lines
`MemTotal: t kB` and `MemFree: f kB`. -/
theorem sscanf_meminfo (t f : Nat) (ws1 ws2 rest : List Char)
    (hws1 : ∀ c ∈ ws1, isspace c = true) (hws2 : ∀ c ∈ ws2, isspace c = true) :
    sscanf ("MemTotal:".toList ++ ws1 ++ utoa t ++ " kB\n".toList ++ "MemFree:".toList ++ ws2
        ++ utoa f ++ " kB".toList ++ rest) "MemTotal: %llu kB\nMemFree: %llu kB"
      = some [t % 2 ^ 64, f % 2 ^ 64] := by
  have hsp : ∀ c ∈ " ".toList, isspace c = true := by decide
  have hnl : ∀ c ∈ "\n".toList, isspace c = true := by decide
  have e1 : " kB\n".toList = ' ' :: (" ".toList ++ ("kB".toList ++ "\n".toList)).tail := by
    decide
  have e2 : " kB".toList = ' ' :: (" ".toList ++ "kB".toList).tail := by decide
  have e3 : ∀ x : List Char, ' ' :: ((" ".toList ++ ("kB".toList ++ "\n".toList)).tail ++ x)
      = " ".toList ++ ("kB".toList ++ ("\n".toList ++ x)) := by
    intro x
    rfl
  have e4 : ∀ x : List Char, ' ' :: ((" ".toList ++ "kB".toList).tail ++ x)
      = " ".toList ++ ("kB".toList ++ x) := by
    intro x
    rfl
  have hk : ∀ x : List Char, skip_spaces ("kB".toList ++ x) = some ("kB".toList ++ x) := by
    intro x
    simp [skip_spaces, isspace]
  have hm : ∀ x : List Char,
      skip_spaces ("MemFree:".toList ++ x) = some ("MemFree:".toList ++ x) := by
    intro x
    simp [skip_spaces, isspace]
  unfold sscanf
  rw [fmt_dirs_meminfo, e1, e2]
  simp only [List.append_assoc, List.cons_append]
  rw [scan_lits, scan_space ws1 _ _ hws1, skip_spaces_utoa, Option.some_bind,
    scan_ull t _ ' ' _ (by decide), e3, scan_space " ".toList _ _ hsp, hk, Option.some_bind,
    scan_lits, scan_space "\n".toList _ _ hnl, hm, Option.some_bind, scan_lits,
    scan_space ws2 _ _ hws2, skip_spaces_utoa, Option.some_bind,
    scan_ull f _ ' ' _ (by decide), e4, scan_space " ".toList _ _ hsp, hk, Option.some_bind]
  have hend : scan (List.map Dir.lit "kB".toList) ("kB".toList ++ rest) = some [] := by
    have := scan_lits "kB".toList [] rest
    rw [List.append_nil] at this
    rw [this]
    rfl
  rw [hend]
  rfl

/-! ## C8: the CPU counts -/

theorem get_CPU_counts_eq (h : Host) (file buf : List Char) (online_cpus total_cpus : Nat)
    (hc : h.cpuinfo = some file) (hs : snapshot file 512 = some buf)
    (hscan : cpu_scan (buf.length + 1) buf 0 0 = some (online_cpus, total_cpus))
    (msg : List Char) :
    get_CPU_counts h msg = sprintf_end msg (text_counts online_cpus total_cpus) := by
  simp only [get_CPU_counts, hc, hs, hscan, text_counts]

/-- C8 fails on the code at `cpuinfo_late`. The description has 4 `processor` entries of
which exactly the last 2 hold a `core id` field, so the count worded by the
specification is 2 active of 4; `get_CPU_counts` appends the line `4 / 4`,
because it looks for `core id` in all the text behind a marker, not in the
block of the unit. -/
theorem cpu_counts_late_core_id :
    spec_cpu_counts cpuinfo_late = (2, 4) ∧
    (∀ msg : List Char, get_CPU_counts host_late msg
      = sprintf_end msg "\x1b[33mCPUs:\x1b[0m\t4 / 4\n".toList) := by
  refine ⟨by decide!, fun msg => ?_⟩
  have := get_CPU_counts_eq host_late cpuinfo_late cpuinfo_late 4 4 rfl (by decide!)
    (by decide!) msg
  rw [this]
  have e : text_counts 4 4 = "\x1b[33mCPUs:\x1b[0m\t4 / 4\n".toList := by decide
  rw [e]

/-! ## C9: the memory line -/

theorem kernel_read_append (a rest : List Char) (size : Nat) (ha : a.length ≤ size) :
    kernel_read (a ++ rest) size
      = a ++ (rest.take (size - a.length)
          ++ List.replicate (size - (a ++ rest).length) NUL) := by
  simp only [kernel_read, List.take_append_eq_append_take, List.take_of_length_le ha,
    List.append_assoc]

theorem getMemoryInfo_lines (h : Host) (t f : Nat) (ht : t < 2 ^ 64) (hf : f < 2 ^ 64)
    (ws1 ws2 rest : List Char)
    (hws1 : ∀ c ∈ ws1, isspace c = true) (hws2 : ∀ c ∈ ws2, isspace c = true)
    (hmem : h.meminfo = some ("MemTotal:".toList ++ ws1 ++ utoa t ++ " kB\n".toList
      ++ "MemFree:".toList ++ ws2 ++ utoa f ++ " kB".toList ++ rest))
    (hfit : ("MemTotal:".toList ++ ws1 ++ utoa t ++ " kB\n".toList
      ++ "MemFree:".toList ++ ws2 ++ utoa f ++ " kB".toList).length ≤ 512)
    (msg : List Char) :
    getMemoryInfo h msg
      = sprintf_end msg ("\x1b[33mMem:\x1b[0m\t\t".toList ++ utoa (f / 1024) ++ " MB / ".toList
          ++ utoa (t / 1024) ++ " MB\n".toList) := by
  have hs := sscanf_meminfo t f ws1 ws2
    (rest.take (512 - ("MemTotal:".toList ++ ws1 ++ utoa t ++ " kB\n".toList
      ++ "MemFree:".toList ++ ws2 ++ utoa f ++ " kB".toList).length)
      ++ List.replicate (512 - ("MemTotal:".toList ++ ws1 ++ utoa t ++ " kB\n".toList
      ++ "MemFree:".toList ++ ws2 ++ utoa f ++ " kB".toList ++ rest).length) NUL) hws1 hws2
  rw [Nat.mod_eq_of_lt ht, Nat.mod_eq_of_lt hf] at hs
  simp only [getMemoryInfo, hmem, kernel_read_append _ rest 512 hfit, hs, List.getD_cons_zero,
    List.getD_cons_succ]

/-- C9. For all unsigned 64-bit values `t` and `f`, when the memory file begins with
`MemTotal:`, white space, `t` in decimal and ` kB`, and on the next line
`MemFree:`, white space, `f` in decimal and ` kB` (the two lines inside the 512
bytes the code reads), `getMemoryInfo` appends the Mem line with `f / 1024`
first and `t / 1024` second, both rounded down. For `t = 16384000` and
`f = 4096000` the line reads `4000 MB / 16000 MB`. -/
theorem getMemoryInfo_free_total (h : Host) (t f : Nat) (ht : t < 2 ^ 64) (hf : f < 2 ^ 64)
    (ws1 ws2 rest : List Char)
    (hws1 : ∀ c ∈ ws1, isspace c = true) (hws2 : ∀ c ∈ ws2, isspace c = true)
    (hmem : h.meminfo = some ("MemTotal:".toList ++ ws1 ++ utoa t ++ " kB\n".toList
      ++ "MemFree:".toList ++ ws2 ++ utoa f ++ " kB".toList ++ rest))
    (hfit : ("MemTotal:".toList ++ ws1 ++ utoa t ++ " kB\n".toList
      ++ "MemFree:".toList ++ ws2 ++ utoa f ++ " kB".toList).length ≤ 512)
    (msg : List Char) :
    getMemoryInfo h msg
      = sprintf_end msg ("\x1b[33mMem:\x1b[0m\t\t".toList ++ utoa (f / 1024) ++ " MB / ".toList
          ++ utoa (t / 1024) ++ " MB\n".toList) ∧
    "\x1b[33mMem:\x1b[0m\t\t".toList ++ utoa (4096000 / 1024) ++ " MB / ".toList
        ++ utoa (16384000 / 1024) ++ " MB\n".toList
      = "\x1b[33mMem:\x1b[0m\t\t4000 MB / 16000 MB\n".toList :=
  ⟨getMemoryInfo_lines h t f ht hf ws1 ws2 rest hws1 hws2 hmem hfit msg, by decide⟩

/-- The statement of `getMemoryInfo_free_total` on `host_mem`, whose memory file
starts with `MemTotal:       16384000 kB` and `MemFree:         4096000 kB`. -/
theorem getMemoryInfo_free_total_witness :
    (16384000 < 2 ^ 64 ∧ 4096000 < 2 ^ 64) ∧
    ((∀ c ∈ "       ".toList, isspace c = true) ∧ (∀ c ∈ "         ".toList, isspace c = true)) ∧
    host_mem.meminfo = some ("MemTotal:".toList ++ "       ".toList ++ utoa 16384000
      ++ " kB\n".toList ++ "MemFree:".toList ++ "         ".toList ++ utoa 4096000
      ++ " kB".toList ++ "\nMemAvailable:    9000000 kB\n".toList) ∧
    ("MemTotal:".toList ++ "       ".toList ++ utoa 16384000 ++ " kB\n".toList
      ++ "MemFree:".toList ++ "         ".toList ++ utoa 4096000 ++ " kB".toList).length ≤ 512 ∧
    (getMemoryInfo host_mem fresh.msg
      = sprintf_end fresh.msg ("\x1b[33mMem:\x1b[0m\t\t".toList ++ utoa (4096000 / 1024)
          ++ " MB / ".toList ++ utoa (16384000 / 1024) ++ " MB\n".toList) ∧
    "\x1b[33mMem:\x1b[0m\t\t".toList ++ utoa (4096000 / 1024) ++ " MB / ".toList
        ++ utoa (16384000 / 1024) ++ " MB\n".toList
      = "\x1b[33mMem:\x1b[0m\t\t4000 MB / 16000 MB\n".toList) :=
  ⟨by decide, by decide, by decide!, by decide!,
    getMemoryInfo_free_total host_mem 16384000 4096000 (by decide) (by decide)
      "       ".toList "         ".toList "\nMemAvailable:    9000000 kB\n".toList
      (by decide) (by decide) (by decide!) (by decide!) fresh.msg⟩

/-! ## C10: a CPU description without `model name` -/

theorem strstr_none (s needle : List Char) (h : ¬ needle <:+: s) : strstr s needle = none := by
  induction s with
  | nil =>
    unfold strstr
    split
    · rename_i hn
      exact absurd (hn ▸ List.infix_refl _) h
    · rfl
  | cons c s ih =>
    unfold strstr
    split
    · rename_i hp
      exact absurd (List.isPrefixOf_iff_prefix.1 hp).isInfix h
    · exact ih (fun hi => h (hi.trans (List.suffix_cons c s).isInfix))

theorem get_CPU_info_none (h : Host) (file buf : List Char) (hc : h.cpuinfo = some file)
    (hs : snapshot file 512 = some buf) (hno : ¬ "model name".toList <:+: buf)
    (msg : List Char) : get_CPU_info h msg = some msg := by
  simp only [get_CPU_info, hc, hs, strstr_none buf _ hno]

/-- C10, as stated, fails. The CPU description of `host_nomodel` is readable and holds
no `model name` key; `get_CPU_info` leaves the buffer as it is, while appending
the label `CPU:` would change it. -/
theorem cpu_label_not_appended :
    get_CPU_info host_nomodel fresh.msg = some fresh.msg ∧
    sprintf_end fresh.msg "\x1b[33mCPU:\x1b[0m\t\t".toList ≠ some fresh.msg := by
  refine ⟨get_CPU_info_none host_nomodel "processor\t: 0\ncore id\t\t: 0\n".toList
    "processor\t: 0\ncore id\t\t: 0\n".toList rfl (by decide!) (by decide!) _, ?_⟩
  decide!

/-! ## C11: the capacity of the buffer -/

/-- A WRITE whose report does not fit the array stores outside it. -/
theorem device_write_overflow (h : Host) (g : Globals) (mask_info len off : Nat)
    (s : List Char × Nat) (hr : report_state h mask_info = some s)
    (hbig : ¬ s.1.length < g.msg.length) :
    device_write h g (some mask_info) len off = none := by
  rw [device_write_eq, hr]
  simp only [stored, Option.some_bind, sprintf_at_zero, hbig, if_false, Option.map_none']

theorem length_report_host_big :
    (report_state host_big 63).map (fun s => s.1.length) = some 1046 := by
  decide!

/-- C11 fails on the code at `host_big`, whose data stay within the sizes the code reads
(node name and release of 64 characters, file contents of at most 511 bytes).
For the mask 63 the composed report has 1046 characters, more than
`BUF_LEN = 1024`; nothing truncates it, and the stores of `device_write` leave
the array `msg` of `BUF_LEN + 1` bytes. -/
theorem report_exceeds_buffer :
    (cstr host_big.nodename).length = 64 ∧ (cstr host_big.release).length = 64 ∧
    (host_big.cpuinfo.map List.length = some 511 ∧
      host_big.meminfo.map List.length = some 67 ∧
      host_big.uptime.map List.length = some 21) ∧
    (report host_big 63).map List.length = some 1046 ∧
    fresh.msg.length = BUF_LEN + 1 ∧
    device_write host_big fresh (some 63) 4 0 = none := by
  have hl := length_report_host_big
  refine ⟨by decide!, by decide!, by decide!, ?_, length_fresh_msg, ?_⟩
  · simpa [report, Option.map_map, Function.comp] using hl
  · cases hr : report_state host_big 63 with
    | none =>
      rw [hr] at hl
      cases hl
    | some s =>
      rw [hr] at hl
      simp only [Option.map_some', Option.some.injEq] at hl
      exact device_write_overflow host_big fresh 63 4 0 s hr
        (by rw [hl, length_fresh_msg]; decide)

/-! ## C12: a WRITE whose mask cannot be copied -/

/-- C12. When the mask cannot be copied from the caller, `device_write` returns
`-EFAULT` and leaves the globals (with the report buffer) and the read cursor
exactly as they were. When the copy succeeds, the return value of a WRITE that
completes is the length `len` the caller passed, and the WRITE completes with
that value wherever the composed report fits the array. -/
theorem write_copy_fault (h : Host) (g : Globals) (len off : Nat) :
    device_write h g none len off = some (-EFAULT, g, off) ∧
    (∀ mask_info : Nat,
      (device_write h g (some mask_info) len off).map (fun out => out.1)
        = (device_write h g (some mask_info) len off).map (fun _ => (len : Int))) ∧
    (∀ (mask_info : Nat) (r : List Char) (row : Nat),
      report_state h mask_info = some (r, row) → r.length < g.msg.length →
      device_write h g (some mask_info) len off
        = some ((len : Int), { g with msg := r ++ NUL :: g.msg.drop (r.length + 1) }, off)) := by
  refine ⟨rfl, ?_, ?_⟩
  · intro mask_info
    rw [device_write_eq]
    simp only [Option.map_map]
    rfl
  · intro mask_info r row hr hfit
    exact device_write_fits h g mask_info len off r row hr hfit

/-- The statement of `write_copy_fault` on the fresh channel, with the report of
mask 0 for the copy that succeeds. -/
theorem write_copy_fault_witness :
    device_write host_min fresh none 4 0 = some (-EFAULT, fresh, 0) ∧
    report_state host_min 0 = some (report_min, 7) ∧
    report_min.length < fresh.msg.length ∧
    device_write host_min fresh (some 0) 4 0
      = some (((4 : Nat) : Int),
          { fresh with msg := report_min ++ NUL :: fresh.msg.drop (report_min.length + 1) },
          0) :=
  ⟨(write_copy_fault host_min fresh 4 0).1, report_state_host_min,
    by rw [length_fresh_msg, length_report_min]; decide,
    (write_copy_fault host_min fresh 4 0).2.2 0 report_min 7 report_state_host_min
      (by rw [length_fresh_msg, length_report_min]; decide)⟩

/-! ## C13: the process count -/

/-- C13. When the process enumeration yields 0, `get_process_info` appends the line
`Failed to fetch the number of process`, which holds no `Procs:` label; for
every count `n > 0` it appends the colored `Procs:` label, a tab, `n` in
decimal and a newline. -/
theorem process_count_line (h : Host) (msg : List Char) :
    get_process_info h msg
      = sprintf_end msg
          (if h.nprocs = 0 then "Failed to fetch the number of process\n".toList
           else "\x1b[33mProcs:\x1b[0m\t".toList ++ utoa h.nprocs ++ "\n".toList) ∧
    ¬ "Procs:".toList <:+: "Failed to fetch the number of process\n".toList := by
  refine ⟨?_, by decide!⟩
  unfold get_process_info
  by_cases hn : h.nprocs = 0
  · simp [hn]
  · simp [hn]

/-! ## C14: the hostname block -/

theorem prefix_report (h : Host) (mask_info : Nat) (r : List Char)
    (hr : report h mask_info = some r) : text_hostname h <+: r := by
  unfold report at hr
  cases hs : report_state h mask_info with
  | none =>
    rw [hs] at hr
    cases hr
  | some s =>
    rw [hs] at hr
    cases hr
    exact prefix_report_state h mask_info s hs

/-- C14. For every node name `name` without NUL or newline, `get_hostname` stores, from
the first byte of `msg` on, exactly two lines: 19 blanks and `name` between the
color escape pair; 19 blanks and as many dashes as `name` has characters.
Neither line holds a newline inside. For every mask the report starts with
this block. -/
theorem hostname_block (h : Host) (name : List Char) (hname : h.nodename = name)
    (hnul : NUL ∉ name) (hnl : '\n' ∉ name) (msg : List Char) :
    get_hostname h msg
      = sprintf_at msg 0
          ((List.replicate 19 ' ' ++ "\x1b[33m".toList ++ name ++ "\x1b[0m".toList) ++ "\n".toList
            ++ (List.replicate 19 ' ' ++ List.replicate name.length '-') ++ "\n".toList) ∧
    '\n' ∉ List.replicate 19 ' ' ++ "\x1b[33m".toList ++ name ++ "\x1b[0m".toList ∧
    '\n' ∉ List.replicate 19 ' ' ++ List.replicate name.length '-' ∧
    ∀ (mask_info : Nat) (r : List Char), report h mask_info = some r →
      ((List.replicate 19 ' ' ++ "\x1b[33m".toList ++ name ++ "\x1b[0m".toList) ++ "\n".toList
        ++ (List.replicate 19 ' ' ++ List.replicate name.length '-') ++ "\n".toList) <+: r := by
  have hc : cstr h.nodename = name := by rw [hname]; exact cstr_eq_self hnul
  have ht : text_hostname h
      = (List.replicate 19 ' ' ++ "\x1b[33m".toList ++ name ++ "\x1b[0m".toList) ++ "\n".toList
        ++ (List.replicate 19 ' ' ++ List.replicate name.length '-') ++ "\n".toList := by
    unfold text_hostname
    rw [hc]
    have e1 : "                   \x1b[33m".toList = List.replicate 19 ' ' ++ "\x1b[33m".toList := by
      decide
    have e2 : "\x1b[0m\n".toList = "\x1b[0m".toList ++ "\n".toList := by decide
    have e3 : "                   ".toList = List.replicate 19 ' ' := by decide
    rw [e1, e2, e3]
    simp only [List.append_assoc]
  refine ⟨by rw [get_hostname_eq, ht], ?_, ?_, ?_⟩
  · intro hm
    simp only [List.mem_append] at hm
    rcases hm with ((hm | hm) | hm) | hm
    · have := List.eq_of_mem_replicate hm
      revert this; decide
    · revert hm; decide
    · exact hnl hm
    · revert hm; decide
  · intro hm
    simp only [List.mem_append] at hm
    rcases hm with hm | hm
    · have := List.eq_of_mem_replicate hm
      revert this; decide
    · have := List.eq_of_mem_replicate hm
      revert this; decide
  · intro mask_info r hr
    rw [← ht]
    exact prefix_report h mask_info r hr

/-- The statement of `hostname_block` on `host_min`, whose node name is `k`. -/
theorem hostname_block_witness :
    host_min.nodename = "k".toList ∧ NUL ∉ "k".toList ∧ '\n' ∉ "k".toList ∧
    (get_hostname host_min fresh.msg
      = sprintf_at fresh.msg 0
          ((List.replicate 19 ' ' ++ "\x1b[33m".toList ++ "k".toList ++ "\x1b[0m".toList)
            ++ "\n".toList
            ++ (List.replicate 19 ' ' ++ List.replicate "k".toList.length '-') ++ "\n".toList) ∧
    '\n' ∉ List.replicate 19 ' ' ++ "\x1b[33m".toList ++ "k".toList ++ "\x1b[0m".toList ∧
    '\n' ∉ List.replicate 19 ' ' ++ List.replicate "k".toList.length '-' ∧
    ∀ (mask_info : Nat) (r : List Char), report host_min mask_info = some r →
      ((List.replicate 19 ' ' ++ "\x1b[33m".toList ++ "k".toList ++ "\x1b[0m".toList)
        ++ "\n".toList
        ++ (List.replicate 19 ' ' ++ List.replicate "k".toList.length '-') ++ "\n".toList)
        <+: r) :=
  ⟨rfl, by decide, by decide,
    hostname_block host_min "k".toList rfl (by decide) (by decide) fresh.msg⟩

/-! ## C15: the uptime line -/

theorem skip_spaces_some (c : Char) (rest : List Char) (hc : isspace c = false) :
    skip_spaces (c :: rest) = some (c :: rest) := by
  simp [skip_spaces, hc]

theorem sscanf_uptime (s : Nat) (ws : List Char) (c : Char) (rest : List Char)
    (hws : ∀ x ∈ ws, isspace x = true) (hc : isdigit c = false) :
    sscanf (ws ++ utoa s ++ c :: rest) "%lu" = some [s % 2 ^ 64] := by
  have hf : fmt_dirs "%lu".toList = [Dir.ull] := by decide
  obtain ⟨d, ds, hd⟩ := List.exists_cons_of_ne_nil (utoa_ne_nil s)
  have hdig : isdigit d = true := isdigit_of_mem_utoa s d (by rw [hd]; exact List.mem_cons_self _ _)
  have hval := simple_strtoull_utoa_append s c rest hc
  have hskip : skip_spaces (ws ++ utoa s ++ c :: rest) = some (utoa s ++ c :: rest) := by
    rw [List.append_assoc, skip_spaces_append ws _ hws, skip_spaces_utoa]
  unfold sscanf
  rw [hf]
  cases hw : ws ++ utoa s ++ c :: rest with
  | nil =>
    rw [hd] at hw
    simp at hw
  | cons x xs =>
    have hx : x ≠ NUL := by
      rintro rfl
      cases ws with
      | nil =>
        rw [hd] at hw
        simp only [List.nil_append, List.cons_append, List.cons.injEq] at hw
        rw [hw.1] at hdig
        revert hdig
        decide
      | cons w ws =>
        simp only [List.cons_append, List.cons.injEq] at hw
        have := hws w (List.mem_cons_self _ _)
        rw [hw.1] at this
        revert this
        decide
    rw [hw] at hskip
    rw [hd] at hskip hval
    simp only [List.cons_append] at hskip hval
    simp only [scan, hx, if_false, hskip, Option.some_bind, hdig, if_true, hval,
      Option.map_some']

theorem get_uptime_info_eq (h : Host) (file : List Char) (s : Nat) (ws : List Char) (c : Char)
    (rest : List Char) (hup : h.uptime = some file)
    (hbuf : kernel_read file 512 = ws ++ utoa s ++ c :: rest)
    (hws : ∀ x ∈ ws, isspace x = true) (hc : isdigit c = false) (msg : List Char) :
    get_uptime_info h msg
      = sprintf_end msg ("\x1b[33mUptime:\x1b[0m\t".toList
          ++ utoa (((s % 2 ^ 64) / 60) % 2 ^ 32) ++ " mins\n".toList) := by
  simp only [get_uptime_info, hup, hbuf, sscanf_uptime s ws c rest hws hc, List.getD_cons_zero]

/-- C15, as stated, fails. The uptime file of `host_long` starts with the seconds value
257698037760, whose sixtieth is 4294967296; `get_uptime_info` appends
`Uptime:` with `0 mins`. -/
theorem uptime_minutes_wrap :
    host_long.uptime = some "257698037760.00 1.00\n".toList ∧
    257698037760 / 60 = 4294967296 ∧
    get_uptime_info host_long fresh.msg
      = sprintf_end fresh.msg "\x1b[33mUptime:\x1b[0m\t0 mins\n".toList := by
  refine ⟨rfl, by decide, ?_⟩
  have := get_uptime_info_eq host_long "257698037760.00 1.00\n".toList 257698037760 [] '.'
    ("00 1.00\n".toList ++ List.replicate 491 NUL) rfl (by decide!) (by decide) (by decide)
    fresh.msg
  rw [this]
  have e : "\x1b[33mUptime:\x1b[0m\t".toList
      ++ utoa (((257698037760 % 2 ^ 64) / 60) % 2 ^ 32) ++ " mins\n".toList
      = "\x1b[33mUptime:\x1b[0m\t0 mins\n".toList := by decide
  rw [e]

/-- C15, amended. For every readable uptime text whose leading token (after optional
white space) is a non-negative decimal seconds value `s` followed by a
character that is no digit (a dot, a blank, the end of the text), and whose
sixtieth `s / 60` is below `2 ^ 32`, the range of the `unsigned int`
`uptime_minutes`, `get_uptime_info` appends the colored `Uptime:` label followed
by `s / 60` rounded down, in decimal, and ` mins` with a newline. -/
theorem uptime_minutes (h : Host) (file : List Char) (s : Nat) (ws : List Char) (c : Char)
    (rest : List Char) (hup : h.uptime = some file)
    (hbuf : kernel_read file 512 = ws ++ utoa s ++ c :: rest)
    (hws : ∀ x ∈ ws, isspace x = true) (hc : isdigit c = false)
    (hs : s / 60 < 2 ^ 32) (msg : List Char) :
    get_uptime_info h msg
      = sprintf_end msg ("\x1b[33mUptime:\x1b[0m\t".toList ++ utoa (s / 60)
          ++ " mins\n".toList) := by
  have h64 : s < 2 ^ 64 := by
    have : s < 60 * 2 ^ 32 := by omega
    omega
  rw [get_uptime_info_eq h file s ws c rest hup hbuf hws hc msg, Nat.mod_eq_of_lt h64,
    Nat.mod_eq_of_lt hs]

/-- The statement of `uptime_minutes` on `host_up`, whose uptime file reads 60.00
seconds. -/
theorem uptime_minutes_witness :
    host_up.uptime = some "60.00 1.00\n".toList ∧
    kernel_read "60.00 1.00\n".toList 512
      = [] ++ utoa 60 ++ '.' :: ("00 1.00\n".toList ++ List.replicate 501 NUL) ∧
    (∀ x ∈ ([] : List Char), isspace x = true) ∧ isdigit '.' = false ∧ 60 / 60 < 2 ^ 32 ∧
    get_uptime_info host_up fresh.msg
      = sprintf_end fresh.msg ("\x1b[33mUptime:\x1b[0m\t".toList ++ utoa (60 / 60)
          ++ " mins\n".toList) :=
  ⟨rfl, by decide!, by decide, by decide, by decide,
    uptime_minutes host_up "60.00 1.00\n".toList 60 [] '.'
      ("00 1.00\n".toList ++ List.replicate 501 NUL) rfl (by decide!) (by decide) (by decide)
      (by decide) fresh.msg⟩

/-! ## C16: a READ on content -/

theorem strlen_of_mem (m : List Char) (hm : NUL ∈ m) :
    strlen m = some (cstr m).length ∧ m.take (cstr m).length = cstr m := by
  induction m with
  | nil => cases hm
  | cons c m ih =>
    by_cases hc : c = NUL
    · subst hc
      simp [strlen, cstr]
    · have hm1 : NUL ∈ m := by
        rcases List.mem_cons.1 hm with h | h
        · exact absurd h.symm hc
        · exact h
      obtain ⟨h1, h2⟩ := ih hm1
      have hcs : cstr (c :: m) = c :: cstr m := by
        simp [cstr, List.takeWhile_cons, hc]
      rw [hcs]
      simp [strlen, hc, h1, h2]

/-- C16. For every state in which the byte at the cursor is not the terminator (a
terminator follows inside the array), every requested length and a
successful copy to the caller, `device_read` delivers exactly the bytes from
the cursor up to the next terminator, not including it; it returns their
number, which is not zero, whatever length was requested; it advances the
cursor by that number and leaves all `BUF_LEN + 1` bytes of `msg` zero. -/
theorem device_read_delivers (g : Globals) (len off : Nat) (c : Char)
    (hc : g.msg.get? off = some c) (hne : c ≠ NUL) (hterm : NUL ∈ g.msg.drop off) :
    device_read g len off true
      = some (((cstr (g.msg.drop off)).length : Int), cstr (g.msg.drop off),
          { g with msg := List.replicate (BUF_LEN + 1) NUL },
          off + (cstr (g.msg.drop off)).length) ∧
    (cstr (g.msg.drop off)).length ≠ 0 ∧
    (∀ x ∈ ({ g with msg := List.replicate (BUF_LEN + 1) NUL } : Globals).msg, x = NUL) ∧
    ({ g with msg := List.replicate (BUF_LEN + 1) NUL } : Globals).msg.length = BUF_LEN + 1 := by
  obtain ⟨h1, h2⟩ := strlen_of_mem _ hterm
  have hd : g.msg.drop off = c :: g.msg.drop (off + 1) := by
    rw [List.get?_eq_getElem?] at hc
    obtain ⟨hlt, hc1⟩ := List.getElem?_eq_some_iff.1 hc
    rw [← hc1]
    exact List.drop_eq_getElem_cons hlt
  refine ⟨?_, ?_, ?_, ?_⟩
  · simp only [device_read, hc, hne, if_false, h1, h2, if_true]
  · intro h0
    rw [h0, hd] at h1
    exact strlen_pos c _ 0 hne h1 rfl
  · intro x hx
    exact List.eq_of_mem_replicate hx
  · simp only [List.length_replicate]

/-- The statement of `device_read_delivers` on the buffer that holds the report of
mask 0, with the cursor at its first byte. -/
theorem device_read_delivers_witness :
    wrote_min.msg.get? 0 = some ' ' ∧ ' ' ≠ NUL ∧ NUL ∈ wrote_min.msg.drop 0 ∧
    (device_read wrote_min 7 0 true
      = some (((cstr (wrote_min.msg.drop 0)).length : Int), cstr (wrote_min.msg.drop 0),
          { wrote_min with msg := List.replicate (BUF_LEN + 1) NUL },
          0 + (cstr (wrote_min.msg.drop 0)).length) ∧
    (cstr (wrote_min.msg.drop 0)).length ≠ 0 ∧
    (∀ x ∈ ({ wrote_min with msg := List.replicate (BUF_LEN + 1) NUL } : Globals).msg,
      x = NUL) ∧
    ({ wrote_min with msg := List.replicate (BUF_LEN + 1) NUL } : Globals).msg.length
      = BUF_LEN + 1) :=
  ⟨by decide!, by decide, by decide!,
    device_read_delivers wrote_min 7 0 ' ' (by decide!) (by decide) (by decide!)⟩

/-! ## C17: the layout of the report -/

theorem all_texts_append (es : List (Option (List Char))) (e : Option (List Char)) :
    all_texts (es ++ [e]) = (all_texts es).bind fun ts => e.map fun t => ts ++ [t] := by
  induction es with
  | nil => cases e <;> rfl
  | cons x es ih =>
    cases x with
    | none => rfl
    | some t =>
      show (all_texts (es ++ [e])).map (fun ts => t :: ts)
        = ((all_texts es).map (fun ts => t :: ts)).bind _
      rw [ih]
      cases all_texts es with
      | none => rfl
      | some ts => cases e <;> rfl

theorem foldl_select (mask_info : Nat) (table done : List (Nat × Option (List Char))) :
    table.foldl (select mask_info)
        (all_texts ((done.filter (fun p => mask_info &&& p.1 ≠ 0)).map Prod.snd))
      = all_texts (((done ++ table).filter (fun p => mask_info &&& p.1 ≠ 0)).map Prod.snd) := by
  induction table generalizing done with
  | nil => simp
  | cons p table ih =>
    have hstep : select mask_info
          (all_texts ((done.filter (fun p => mask_info &&& p.1 ≠ 0)).map Prod.snd)) p
        = all_texts (((done ++ [p]).filter (fun p => mask_info &&& p.1 ≠ 0)).map Prod.snd) := by
      unfold select
      by_cases hb : mask_info &&& p.1 ≠ 0
      · rw [if_pos hb, List.filter_append]
        have : List.filter (fun p => decide (mask_info &&& p.1 ≠ 0)) [p] = [p] := by
          simp [List.filter, hb]
        rw [this, List.map_append, List.map_singleton, all_texts_append]
      · rw [if_neg hb, List.filter_append]
        have : List.filter (fun p => decide (mask_info &&& p.1 ≠ 0)) [p] = [] := by
          simp [List.filter, hb]
        rw [this, List.append_nil]
    rw [List.foldl_cons, hstep, ih (done ++ [p])]
    simp

theorem select_length (mask_info n : Nat) (sel : Option (List (List Char)))
    (p : Nat × Option (List Char)) (hsel : ∀ ts, sel = some ts → ts.length ≤ n) :
    ∀ ts, select mask_info sel p = some ts → ts.length ≤ n + 1 := by
  intro ts hts
  unfold select at hts
  split at hts
  · cases sel with
    | none => cases hts
    | some us =>
      cases hp : p.2 with
      | none =>
        rw [hp] at hts
        cases hts
      | some t =>
        rw [hp] at hts
        cases hts
        have := hsel us rfl
        simp only [List.length_append, List.length_singleton]
        omega
  · exact Nat.le_succ_of_le (hsel ts hts)

theorem text_metric_select (h : Host) (mask_info : Nat) (sel : Option (List (List Char)))
    (p : Nat × Option (List Char)) (hsel : ∀ ts, sel = some ts → ts.length < ROWS) :
    (sel.map fun ts => (text_hostname h ++ banner_rows 0 ts, ts.length)).bind
        (text_metric mask_info p.1 p.2)
      = (select mask_info sel p).map
          fun ts => (text_hostname h ++ banner_rows 0 ts, ts.length) := by
  unfold select
  cases sel with
  | none => split <;> rfl
  | some ts =>
    have hlt := hsel ts rfl
    simp only [Option.map_some', Option.some_bind, text_metric]
    by_cases hb : mask_info &&& p.1 ≠ 0
    · rw [if_pos hb, if_pos hb]
      cases p.2 with
      | none => rfl
      | some t =>
        simp only [Option.map_some', text_banner, hlt, if_true, banner_rows_append,
          List.length_append, List.length_singleton, Nat.zero_add, List.append_assoc]
    · rw [if_neg hb, if_neg hb]
      rfl

theorem text_fill_layout (h : Host) (fuel : Nat) (ts : List (List Char))
    (hle : ts.length ≤ ROWS) (hfuel : ROWS - ts.length ≤ fuel) :
    text_fill fuel (text_hostname h ++ banner_rows 0 ts, ts.length) = (layout h ts, ROWS) := by
  induction fuel generalizing ts with
  | zero =>
    have he : ts.length = ROWS := by omega
    simp only [text_fill, layout, he, Nat.sub_self, List.replicate_zero, List.append_nil]
  | succ fuel ih =>
    unfold text_fill
    by_cases hlt : ts.length < ROWS
    · simp only [hlt, if_true, text_banner]
      have h1 := ih (ts ++ ["\n".toList]) (by simp; omega) (by simp; omega)
      simp only [banner_rows_append, List.length_append, List.length_singleton, Nat.zero_add,
        List.append_assoc] at h1
      simp only [List.append_assoc]
      rw [h1]
      simp only [layout, List.length_append, List.length_singleton, List.append_assoc]
      have : ROWS - ts.length = (ROWS - (ts.length + 1)) + 1 := by omega
      rw [this, List.replicate_succ]
      simp
    · have he : ts.length = ROWS := by omega
      simp only [hlt, if_false, layout, he, Nat.sub_self, List.replicate_zero, List.append_nil,
        Nat.lt_irrefl]

theorem selected_length (h : Host) (mask_info : Nat) : (selected h mask_info).length ≤ 6 := by
  unfold selected
  rw [List.length_map]
  exact (List.length_filter_le _ _).trans (by simp [metric_table])

theorem all_texts_length (es : List (Option (List Char))) (ts : List (List Char))
    (h : all_texts es = some ts) : ts.length = es.length := by
  induction es generalizing ts with
  | nil =>
    cases h
    rfl
  | cons e es ih =>
    cases e with
    | none => cases h
    | some t =>
      simp only [all_texts] at h
      cases hr : all_texts es with
      | none =>
        rw [hr] at h
        cases h
      | some us =>
        rw [hr] at h
        cases h
        simp [ih us hr]

theorem metrics_state_select (h : Host) (mask_info : Nat) :
    metrics_state h mask_info
      = ((metric_table h).foldl (select mask_info) (some [])).map
          (fun ts => (text_hostname h ++ banner_rows 0 ts, ts.length)) ∧
    ∀ ts, (metric_table h).foldl (select mask_info) (some []) = some ts → ts.length ≤ 6 := by
  have l0 : ∀ ts, (some [] : Option (List (List Char))) = some ts → ts.length ≤ 0 := by
    intro ts hts
    cases hts
    exact le_refl _
  have l1 := select_length mask_info 0 _ (KFETCH_RELEASE, some (text_kernel_info h)) l0
  have l2 := select_length mask_info 1 _ (KFETCH_CPU_MODEL, text_CPU_info h) l1
  have l3 := select_length mask_info 2 _ (KFETCH_NUM_CPUS, text_CPU_counts h) l2
  have l4 := select_length mask_info 3 _ (KFETCH_MEM, text_MemoryInfo h) l3
  have l5 := select_length mask_info 4 _ (KFETCH_NUM_PROCS, some (text_process_info h)) l4
  have l6 := select_length mask_info 5 _ (KFETCH_UPTIME, text_uptime_info h) l5
  have b : ∀ (n : Nat) (sel : Option (List (List Char))), n < ROWS →
      (∀ ts, sel = some ts → ts.length ≤ n) → ∀ ts, sel = some ts → ts.length < ROWS :=
    fun n sel hn hsel ts hts => Nat.lt_of_le_of_lt (hsel ts hts) hn
  have s1 := text_metric_select h mask_info _ (KFETCH_RELEASE, some (text_kernel_info h))
    (b 0 _ (by decide) l0)
  have s2 := text_metric_select h mask_info _ (KFETCH_CPU_MODEL, text_CPU_info h)
    (b 1 _ (by decide) l1)
  have s3 := text_metric_select h mask_info _ (KFETCH_NUM_CPUS, text_CPU_counts h)
    (b 2 _ (by decide) l2)
  have s4 := text_metric_select h mask_info _ (KFETCH_MEM, text_MemoryInfo h)
    (b 3 _ (by decide) l3)
  have s5 := text_metric_select h mask_info _ (KFETCH_NUM_PROCS, some (text_process_info h))
    (b 4 _ (by decide) l4)
  have s6 := text_metric_select h mask_info _ (KFETCH_UPTIME, text_uptime_info h)
    (b 5 _ (by decide) l5)
  refine ⟨?_, l6⟩
  have s0 : (some (text_hostname h, 0) : Option (List Char × Nat))
      = (some [] : Option (List (List Char))).map
          (fun ts => (text_hostname h ++ banner_rows 0 ts, ts.length)) := by
    simp [banner_rows]
  unfold metrics_state
  rw [s0]
  simp only at s1 s2 s3 s4 s5 s6
  rw [s1, s2, s3, s4, s5, s6]
  rfl

theorem report_state_layout (h : Host) (mask_info : Nat) :
    report_state h mask_info
      = (all_texts (selected h mask_info)).map (fun ts => (layout h ts, ROWS)) := by
  obtain ⟨hm, hl⟩ := metrics_state_select h mask_info
  have hf := foldl_select mask_info (metric_table h) []
  simp only [List.filter_nil, List.map_nil, List.nil_append] at hf
  have ha : all_texts [] = some [] := rfl
  rw [ha] at hf
  unfold report_state selected
  rw [hf] at hl hm
  rw [hm]
  cases hs : all_texts ((List.filter (fun p => decide (mask_info &&& p.1 ≠ 0))
      (metric_table h)).map Prod.snd) with
  | none => rfl
  | some ts =>
    have hle : ts.length ≤ 6 := hl ts hs
    simp only [Option.map_some']
    rw [text_fill_layout h ROWS ts (by simp only [ROWS]; omega) (by omega)]

theorem report_layout_eq (h : Host) (mask_info : Nat) :
    report h mask_info = (all_texts (selected h mask_info)).map (layout h) := by
  rw [report, report_state_layout]
  cases all_texts (selected h mask_info) <;> rfl

/-- C17. For every mask `M` and all provider data, the report of WRITE(M) is the
hostname block, followed for the `j`-th set bit of `M` in canonical order
(kernel release, CPU model, CPU count, memory, process count, uptime) by row `j`
of `graphic` and the text of that metric (nothing for a provider whose file
does not open), followed for each remaining row up to row 6 by the row and a
newline. At most 6 texts are selected, so each has its row. `device_write`
stores this report from the first byte of `msg` on; it is undefined only where
a selected provider is undefined or the report does not fit the array. -/
theorem report_layout (h : Host) (g : Globals) (M len off : Nat) :
    report h M = (all_texts (selected h M)).map (layout h) ∧
    device_write h g (some M) len off
      = ((all_texts (selected h M)).bind fun ts => sprintf_at g.msg 0 (layout h ts)).map
          (fun m => ((len : Int), { g with msg := m }, off)) ∧
    (selected h M).length ≤ 6 := by
  refine ⟨?_, ?_, selected_length h M⟩
  · rw [report, report_state_layout]
    cases all_texts (selected h M) <;> rfl
  · rw [device_write_eq, report_state_layout]
    cases all_texts (selected h M) with
    | none => rfl
    | some ts =>
      simp only [stored, Option.map_some', Option.some_bind, Option.map_map]
      rfl

/-! ## C19: the lines of the report -/

theorem banner_rows_lines (i : Nat) (bs : List (List Char)) :
    banner_rows i (bs.map (fun b => b ++ "\n".toList))
      = ((row_lines i bs).map (fun l => l ++ "\n".toList)).flatten := by
  induction bs generalizing i with
  | nil => rfl
  | cons b bs ih =>
    simp only [List.map_cons, banner_rows, row_lines, List.flatten_cons, ih,
      List.append_assoc]

theorem row_lines_length (i : Nat) (bs : List (List Char)) :
    (row_lines i bs).length = bs.length := by
  induction bs generalizing i with
  | nil => rfl
  | cons b bs ih => simp only [row_lines, List.length_cons, ih]

theorem row_lines_prefix (i j : Nat) (bs : List (List Char)) (hj : j < bs.length) :
    graphic.getD (i + j) [] <+: (row_lines i bs).getD j [] := by
  induction bs generalizing i j with
  | nil => cases hj
  | cons b bs ih =>
    cases j with
    | zero =>
      simp only [row_lines, List.getD_cons_zero, Nat.add_zero]
      exact List.prefix_append _ _
    | succ j =>
      simp only [row_lines, List.getD_cons_succ]
      have := ih (i + 1) j (by simpa using hj)
      rw [show i + 1 + j = i + (j + 1) by omega] at this
      exact this

theorem row_lines_no_newline (i : Nat) (bs : List (List Char))
    (hbs : ∀ b ∈ bs, '\n' ∉ b) : ∀ l ∈ row_lines i bs, '\n' ∉ l := by
  induction bs generalizing i with
  | nil =>
    intro l hl
    cases hl
  | cons b bs ih =>
    intro l hl
    simp only [row_lines, List.mem_cons] at hl
    rcases hl with rfl | hl
    · have hg : ∀ r ∈ graphic, '\n' ∉ r := by decide
      intro hm
      rcases List.mem_append.1 hm with hm | hm
      · by_cases hi : i < graphic.length
        · rw [List.getD_eq_getElem _ _ hi] at hm
          exact hg _ (List.getElem_mem _) hm
        · rw [List.getD_eq_default _ _ (by omega)] at hm
          cases hm
      · exact hbs b (List.mem_cons_self _ _) hm
    · exact ih (i + 1) (fun x hx => hbs x (List.mem_cons_of_mem _ hx)) l hl

/-- The two lines of the hostname block. -/
theorem text_hostname_lines (h : Host) :
    text_hostname h
      = ((List.replicate 19 ' ' ++ "\x1b[33m".toList ++ cstr h.nodename ++ "\x1b[0m".toList)
          ++ "\n".toList)
        ++ ((List.replicate 19 ' ' ++ List.replicate (cstr h.nodename).length '-')
          ++ "\n".toList) := by
  unfold text_hostname
  have e1 : "                   \x1b[33m".toList = List.replicate 19 ' ' ++ "\x1b[33m".toList := by
    decide
  have e2 : "\x1b[0m\n".toList = "\x1b[0m".toList ++ "\n".toList := by decide
  have e3 : "                   ".toList = List.replicate 19 ' ' := by decide
  rw [e1, e2, e3]
  simp only [List.append_assoc]

theorem report_lines (h : Host) (M : Nat) (bodies : List (List Char))
    (hname : '\n' ∉ cstr h.nodename)
    (hsel : all_texts (selected h M) = some (bodies.map (fun b => b ++ "\n".toList)))
    (hbodies : ∀ b ∈ bodies, '\n' ∉ b) :
    ∃ lines : List (List Char), lines.length = 9 ∧ (∀ l ∈ lines, '\n' ∉ l) ∧
      report h M = some ((lines.map (fun l => l ++ "\n".toList)).flatten) ∧
      lines.getD 0 []
        = List.replicate 19 ' ' ++ "\x1b[33m".toList ++ cstr h.nodename ++ "\x1b[0m".toList ∧
      lines.getD 1 []
        = List.replicate 19 ' ' ++ List.replicate (cstr h.nodename).length '-' ∧
      ∀ i, i < 7 → graphic.getD i [] <+: lines.getD (i + 2) [] := by
  have hlen6 : bodies.length ≤ 6 := by
    have h1 := all_texts_length _ _ hsel
    have h2 := selected_length h M
    rw [List.length_map] at h1
    omega
  have hfill : bodies.map (fun b => b ++ "\n".toList)
        ++ List.replicate (ROWS - (bodies.map (fun b => b ++ "\n".toList)).length) "\n".toList
      = (bodies ++ List.replicate (7 - bodies.length) []).map (fun b => b ++ "\n".toList) := by
    simp [ROWS]
  have hb7 : (bodies ++ List.replicate (7 - bodies.length) ([] : List Char)).length = 7 := by
    simp only [List.length_append, List.length_replicate]
    omega
  have hnl7 : ∀ b ∈ bodies ++ List.replicate (7 - bodies.length) ([] : List Char),
      '\n' ∉ b := by
    intro b hb
    rcases List.mem_append.1 hb with hb | hb
    · exact hbodies b hb
    · rw [List.eq_of_mem_replicate hb]
      simp
  refine ⟨(List.replicate 19 ' ' ++ "\x1b[33m".toList ++ cstr h.nodename ++ "\x1b[0m".toList)
    :: (List.replicate 19 ' ' ++ List.replicate (cstr h.nodename).length '-')
    :: row_lines 0 (bodies ++ List.replicate (7 - bodies.length) []), ?_, ?_, ?_, rfl, rfl, ?_⟩
  · simp only [List.length_cons, row_lines_length, hb7]
  · intro l hl
    simp only [List.mem_cons] at hl
    rcases hl with rfl | rfl | hl
    · intro hm
      simp only [List.mem_append] at hm
      rcases hm with ((hm | hm) | hm) | hm
      · have := List.eq_of_mem_replicate hm
        revert this; decide
      · revert hm; decide
      · exact hname hm
      · revert hm; decide
    · intro hm
      simp only [List.mem_append] at hm
      rcases hm with hm | hm
      · have := List.eq_of_mem_replicate hm
        revert this; decide
      · have := List.eq_of_mem_replicate hm
        revert this; decide
    · exact row_lines_no_newline 0 _ hnl7 l hl
  · rw [(report_layout_eq h M), hsel]
    simp only [Option.map_some', layout, hfill, banner_rows_lines, text_hostname_lines,
      List.map_cons, List.flatten_cons, List.append_assoc]
  · intro i hi
    simp only [List.getD_cons_succ]
    have := row_lines_prefix 0 i (bodies ++ List.replicate (7 - bodies.length) [])
      (by rw [hb7]; exact hi)
    simpa using this

/-- The string in the buffer after a WRITE that returns is the report. -/
theorem device_write_cstr (h : Host) (g : Globals) (mask_info len off : Nat)
    (ret : Int) (g1 : Globals) (off1 : Nat)
    (hw : device_write h g (some mask_info) len off = some (ret, g1, off1)) :
    report h mask_info = some (cstr g1.msg) := by
  obtain ⟨r, row, hr, _, _, hg1, _⟩ := device_write_some h g mask_info len off ret g1 off1 hw
  have hnul : NUL ∉ r := nulFree_report_state h mask_info (r, row) hr
  rw [hg1]
  simp only [report, hr, Option.map_some', cstr_append_nul r _ hnul]

theorem report_state_host_min_release :
    report_state host_min KFETCH_RELEASE = some (report_release, 7) := by
  decide!

/-- C19. For every mask, when the node name holds no newline and every selected
provider succeeds and emits exactly one line (a body without newline, then a
newline), the report stored by a WRITE that completes consists of exactly 9
lines, each ended by a newline: the 2 hostname lines, then 7 lines of which
line `i` (for `i` from 0 to 6) begins with row `i` of `graphic`. -/
theorem nine_lines (h : Host) (g : Globals) (M len off : Nat) (bodies : List (List Char))
    (hname : '\n' ∉ cstr h.nodename)
    (hsel : all_texts (selected h M) = some (bodies.map (fun b => b ++ "\n".toList)))
    (hbodies : ∀ b ∈ bodies, '\n' ∉ b)
    (ret : Int) (g1 : Globals) (off1 : Nat)
    (hw : device_write h g (some M) len off = some (ret, g1, off1)) :
    ∃ lines : List (List Char), lines.length = 9 ∧ (∀ l ∈ lines, '\n' ∉ l) ∧
      cstr g1.msg = (lines.map (fun l => l ++ "\n".toList)).flatten ∧
      lines.getD 0 []
        = List.replicate 19 ' ' ++ "\x1b[33m".toList ++ cstr h.nodename ++ "\x1b[0m".toList ∧
      lines.getD 1 []
        = List.replicate 19 ' ' ++ List.replicate (cstr h.nodename).length '-' ∧
      ∀ i, i < 7 → graphic.getD i [] <+: lines.getD (i + 2) [] := by
  obtain ⟨lines, h9, hnl, hr, h0, h1, hrows⟩ := report_lines h M bodies hname hsel hbodies
  have hc := device_write_cstr h g M len off ret g1 off1 hw
  rw [hr] at hc
  exact ⟨lines, h9, hnl, (Option.some.inj hc).symm, h0, h1, hrows⟩

/-- The statement of `nine_lines` for the WRITE with only the kernel release bit on
the fresh channel. -/
theorem nine_lines_witness :
    '\n' ∉ cstr host_min.nodename ∧
    all_texts (selected host_min KFETCH_RELEASE)
      = some (["\x1b[33mKernel:\x1b[0m\t6".toList].map (fun b => b ++ "\n".toList)) ∧
    (∀ b ∈ ["\x1b[33mKernel:\x1b[0m\t6".toList], '\n' ∉ b) ∧
    device_write host_min fresh (some KFETCH_RELEASE) 4 0
      = some (4,
          { fresh with
            msg := report_release ++ NUL :: fresh.msg.drop (report_release.length + 1) }, 0) ∧
    ∃ lines : List (List Char), lines.length = 9 ∧ (∀ l ∈ lines, '\n' ∉ l) ∧
      cstr ({ fresh with
          msg := report_release ++ NUL :: fresh.msg.drop (report_release.length + 1) } :
          Globals).msg
        = (lines.map (fun l => l ++ "\n".toList)).flatten ∧
      lines.getD 0 []
        = List.replicate 19 ' ' ++ "\x1b[33m".toList ++ cstr host_min.nodename
          ++ "\x1b[0m".toList ∧
      lines.getD 1 []
        = List.replicate 19 ' ' ++ List.replicate (cstr host_min.nodename).length '-' ∧
      ∀ i, i < 7 → graphic.getD i [] <+: lines.getD (i + 2) [] :=
  ⟨by decide, by decide!, by decide,
    device_write_fits host_min fresh KFETCH_RELEASE 4 0 report_release 7
      report_state_host_min_release (by rw [length_fresh_msg]; decide!),
    nine_lines host_min fresh KFETCH_RELEASE 4 0 ["\x1b[33mKernel:\x1b[0m\t6".toList]
      (by decide) (by decide!) (by decide) 4 _ 0
      (device_write_fits host_min fresh KFETCH_RELEASE 4 0 report_release 7
        report_state_host_min_release (by rw [length_fresh_msg]; decide!))⟩

/-! ## First occurrences: `strstr` and `strchr` -/

theorem infix_of_strstr_ne_none (s needle : List Char) (h : needle <:+: s) :
    strstr s needle ≠ none := by
  induction s with
  | nil =>
    have hn : needle = [] := List.eq_nil_of_infix_nil h
    simp [strstr, hn]
  | cons c s ih =>
    unfold strstr
    split
    · simp
    · rename_i hp
      rcases List.infix_cons_iff.1 h with hpre | hin
      · exact absurd (List.isPrefixOf_iff_prefix.2 hpre) hp
      · exact ih hin

theorem strstr_isSome_iff (s needle : List Char) :
    (strstr s needle).isSome = decide (needle <:+: s) := by
  by_cases h : needle <:+: s
  · have := infix_of_strstr_ne_none s needle h
    cases hs : strstr s needle with
    | none => exact absurd hs this
    | some p => simp [h]
  · simp [strstr_none s needle h, h]

theorem prefix_take_of_length_le (a x y : List Char) (k : Nat) (h : a <+: x ++ y)
    (hk : a.length ≤ x.length + k) : a <+: x ++ y.take k := by
  rw [List.prefix_iff_eq_take] at h ⊢
  rw [List.take_append_eq_append_take] at h ⊢
  rw [List.take_take, Nat.min_eq_left (by omega)]
  exact h

theorem strstr_first (pre needle rest : List Char) (hne : needle ≠ [])
    (hfirst : ¬ needle <:+: pre ++ needle.dropLast) :
    strstr (pre ++ needle ++ rest) needle = some (needle ++ rest) := by
  induction pre with
  | nil =>
    obtain ⟨c, n, rfl⟩ := List.exists_cons_of_ne_nil hne
    have hp : (c :: n).isPrefixOf (c :: n ++ rest) = true :=
      List.isPrefixOf_iff_prefix.2 (List.prefix_append _ _)
    simp only [List.nil_append, List.cons_append] at hp ⊢
    simp only [strstr, hp, if_true]
  | cons c pre ih =>
    have hnp : needle.isPrefixOf (c :: (pre ++ needle ++ rest)) = false := by
      cases hb : needle.isPrefixOf (c :: (pre ++ needle ++ rest)) with
      | false => rfl
      | true =>
        exfalso
        have hp : needle <+: (c :: pre) ++ (needle ++ rest) := by
          have := List.isPrefixOf_iff_prefix.1 hb
          simpa [List.append_assoc] using this
        have hp2 := prefix_take_of_length_le needle (c :: pre) (needle ++ rest)
          (needle.length - 1) hp (by simp only [List.length_cons]; omega)
        have ht : (needle ++ rest).take (needle.length - 1) = needle.dropLast := by
          rw [List.take_append_of_le_length (by omega), List.dropLast_eq_take]
        rw [ht] at hp2
        exact hfirst hp2.isInfix
    have hrec : ¬ needle <:+: pre ++ needle.dropLast := fun hi =>
      hfirst (hi.trans (List.suffix_cons c _).isInfix)
    show strstr (c :: (pre ++ needle ++ rest)) needle = some (needle ++ rest)
    rw [strstr, hnp, if_neg (by simp)]
    exact ih hrec

theorem strchr_first (a rest : List Char) (ch : Char) (ha : ch ∉ a) :
    strchr (a ++ ch :: rest) ch = some (ch :: rest) := by
  induction a with
  | nil => simp [strchr]
  | cons c a ih =>
    have hc : c ≠ ch := fun h => ha (by simp [h])
    have ha1 : ch ∉ a := fun h => ha (by simp [h])
    simp only [List.cons_append, strchr, hc, if_false]
    exact ih ha1

/-! ## C20: what `get_CPU_counts` counts -/

theorem scanned_length_lt (pre mid rest : List Char) :
    rest.length < (pre ++ "processor".toList ++ mid ++ '\n' :: rest).length := by
  simp only [List.length_append, List.length_cons]
  omega

theorem cpu_scan_scanned (text : List Char) (rests : List (List Char))
    (hs : Scanned text rests) (fuel online_cpus total_cpus : Nat) (hfuel : text.length < fuel) :
    cpu_scan fuel text online_cpus total_cpus
      = some (online_cpus + count_core_id rests, total_cpus + rests.length) := by
  induction hs generalizing fuel online_cpus total_cpus with
  | done text hno =>
    cases fuel with
    | zero => omega
    | succ fuel =>
      simp only [cpu_scan, strstr_none text _ hno, count_core_id, List.filter_nil,
        List.length_nil, Nat.add_zero]
  | step pre mid rest rests hfirst hmid _ ih =>
    cases fuel with
    | zero => omega
    | succ fuel =>
      have hlt := scanned_length_lt pre mid rest
      have h1 : strstr (pre ++ "processor".toList ++ mid ++ '\n' :: rest) "processor".toList
          = some ("processor".toList ++ (mid ++ '\n' :: rest)) := by
        have := strstr_first pre "processor".toList (mid ++ '\n' :: rest) (by decide) hfirst
        simpa [List.append_assoc] using this
      have h2 : strchr ("processor".toList ++ (mid ++ '\n' :: rest)) '\n'
          = some ('\n' :: rest) := by
        have hm : '\n' ∉ "processor".toList ++ mid := by
          intro hm
          rcases List.mem_append.1 hm with hm | hm
          · revert hm; decide
          · exact hmid hm
        have := strchr_first ("processor".toList ++ mid) rest '\n' hm
        simpa [List.append_assoc] using this
      have hrec := ih fuel
      simp only [cpu_scan, h1, h2, List.tail_cons]
      by_cases hcore : "core id".toList <:+: rest
      · have h3 : (strstr rest "core id".toList).isSome = true := by
          rw [strstr_isSome_iff]
          simpa using hcore
        obtain ⟨p, hp⟩ := Option.isSome_iff_exists.1 h3
        rw [hp]
        simp only
        rw [hrec (online_cpus + 1) (total_cpus + 1) (by omega)]
        simp only [count_core_id, List.filter_cons, hcore, decide_True, if_true,
          List.length_cons]
        congr 2 <;> omega
      · rw [strstr_none rest _ hcore]
        simp only
        rw [hrec online_cpus (total_cpus + 1) (by omega)]
        simp only [count_core_id, List.filter_cons, hcore, decide_False, Bool.false_eq_true,
          if_false, List.length_cons]
        congr 2
        omega

theorem count_core_id_le (rests : List (List Char)) : count_core_id rests ≤ rests.length :=
  List.length_filter_le _ _

/-- C20. For every CPU description in which each `processor` marker the scan meets is
followed by a newline (`Scanned buf rests`), the loop of `get_CPU_counts` ends
with a result for every bound on its rounds above the length of the text; the
total is the number of scanned markers; the active count is the number of
scanned markers for which `core id` occurs anywhere in the text behind the end
of the marker's line, and it is at most the total. `get_CPU_counts` appends
the line with these two numbers. -/
theorem cpu_counts_scanned (h : Host) (file buf : List Char) (rests : List (List Char))
    (hc : h.cpuinfo = some file) (hs : snapshot file 512 = some buf)
    (hscan : Scanned buf rests) (msg : List Char) :
    (∀ fuel, buf.length < fuel →
      cpu_scan fuel buf 0 0 = some (count_core_id rests, rests.length)) ∧
    count_core_id rests ≤ rests.length ∧
    get_CPU_counts h msg
      = sprintf_end msg ("\x1b[33mCPUs:\x1b[0m\t".toList ++ utoa (count_core_id rests)
          ++ " / ".toList ++ utoa rests.length ++ "\n".toList) := by
  have hfuel : ∀ fuel, buf.length < fuel →
      cpu_scan fuel buf 0 0 = some (count_core_id rests, rests.length) := by
    intro fuel hf
    have := cpu_scan_scanned buf rests hscan fuel 0 0 hf
    simpa using this
  refine ⟨hfuel, count_core_id_le rests, ?_⟩
  exact get_CPU_counts_eq h file buf _ _ hc hs (hfuel _ (Nat.lt_succ_self _)) msg

theorem scanned_host_cpu :
    Scanned "processor\t: 0\nmodel name\t: Fast CPU\ncore id\t\t: 0\n".toList
      ["model name\t: Fast CPU\ncore id\t\t: 0\n".toList] := by
  have e : "processor\t: 0\nmodel name\t: Fast CPU\ncore id\t\t: 0\n".toList
      = [] ++ "processor".toList ++ "\t: 0".toList
        ++ '\n' :: "model name\t: Fast CPU\ncore id\t\t: 0\n".toList := by decide
  rw [e]
  exact Scanned.step [] "\t: 0".toList _ [] (by decide!) (by decide)
    (Scanned.done _ (by decide!))

/-- The statement of `cpu_counts_scanned` on `host_cpu`, the description of one unit
with a `core id` field. -/
theorem cpu_counts_scanned_witness :
    host_cpu.cpuinfo = some "processor\t: 0\nmodel name\t: Fast CPU\ncore id\t\t: 0\n".toList ∧
    snapshot "processor\t: 0\nmodel name\t: Fast CPU\ncore id\t\t: 0\n".toList 512
      = some "processor\t: 0\nmodel name\t: Fast CPU\ncore id\t\t: 0\n".toList ∧
    Scanned "processor\t: 0\nmodel name\t: Fast CPU\ncore id\t\t: 0\n".toList
      ["model name\t: Fast CPU\ncore id\t\t: 0\n".toList] ∧
    ((∀ fuel, "processor\t: 0\nmodel name\t: Fast CPU\ncore id\t\t: 0\n".toList.length < fuel →
      cpu_scan fuel "processor\t: 0\nmodel name\t: Fast CPU\ncore id\t\t: 0\n".toList 0 0
        = some (count_core_id ["model name\t: Fast CPU\ncore id\t\t: 0\n".toList],
            ["model name\t: Fast CPU\ncore id\t\t: 0\n".toList].length)) ∧
    count_core_id ["model name\t: Fast CPU\ncore id\t\t: 0\n".toList]
      ≤ ["model name\t: Fast CPU\ncore id\t\t: 0\n".toList].length ∧
    get_CPU_counts host_cpu fresh.msg
      = sprintf_end fresh.msg ("\x1b[33mCPUs:\x1b[0m\t".toList
          ++ utoa (count_core_id ["model name\t: Fast CPU\ncore id\t\t: 0\n".toList])
          ++ " / ".toList ++ utoa ["model name\t: Fast CPU\ncore id\t\t: 0\n".toList].length
          ++ "\n".toList)) :=
  ⟨rfl, by decide!, scanned_host_cpu,
    cpu_counts_scanned host_cpu "processor\t: 0\nmodel name\t: Fast CPU\ncore id\t\t: 0\n".toList
      "processor\t: 0\nmodel name\t: Fast CPU\ncore id\t\t: 0\n".toList
      ["model name\t: Fast CPU\ncore id\t\t: 0\n".toList] rfl (by decide!) scanned_host_cpu
      fresh.msg⟩

/-! ## C18: the CPU model line -/

/-- A buffer operation that appends `e`, on an array that holds a string. -/
theorem appends_terminated {P : List Char → Option (List Char)} {e : Option (List Char)}
    (hP : Appends P e) (msg : List Char) (hmsg : NUL ∈ msg) :
    P msg = e.bind (fun s => sprintf_end msg s) := by
  obtain ⟨hlen, htake⟩ := strlen_of_mem msg hmsg
  have hn := nul_not_mem_cstr msg
  have hdec : msg = cstr msg ++ NUL :: msg.drop ((cstr msg).length + 1) := by
    have h1 : msg = msg.take (cstr msg).length ++ msg.drop (cstr msg).length :=
      (List.take_append_drop _ _).symm
    have h2 : msg.drop (cstr msg).length = NUL :: msg.drop ((cstr msg).length + 1) := by
      have hlt : (cstr msg).length < msg.length := by
        by_contra hge
        have : msg.take (cstr msg).length = msg := List.take_of_length_le (by omega)
        rw [this] at htake
        rw [← htake] at hn
        exact hn hmsg
      rw [List.drop_eq_getElem_cons hlt]
      congr 1
      have hd : msg.drop (cstr msg).length = (msg.dropWhile (fun c => c != NUL)) := by
        have := List.takeWhile_append_dropWhile (fun c => c != NUL) msg
        have h3 : msg.drop (cstr msg).length
            = (List.takeWhile (fun c => c != NUL) msg
                ++ List.dropWhile (fun c => c != NUL) msg).drop (cstr msg).length := by
          rw [this]
        rw [h3]
        exact List.drop_left _ _
      have hx : (msg.drop (cstr msg).length).head? = some msg[(cstr msg).length] := by
        rw [List.drop_eq_getElem_cons hlt]
        rfl
      rw [hd] at hx
      cases hdw : msg.dropWhile (fun c => c != NUL) with
      | nil =>
        rw [hdw] at hx
        cases hx
      | cons x xs =>
        rw [hdw] at hx
        have hxn : (x != NUL) = false := by
          have := List.head_dropWhile_not (fun c => c != NUL) msg
            (by rw [hdw]; exact List.cons_ne_nil _ _)
          simpa [hdw] using this
        simp only [List.head?_cons, Option.some.injEq] at hx
        rw [← hx]
        simpa using hxn
    rw [h2, htake] at h1
    exact h1
  have hself : sprintf_at msg 0 (cstr msg) = some msg := by
    rw [sprintf_at_zero]
    have hlt : (cstr msg).length < msg.length := by
      have := congrArg List.length hdec
      simp only [List.length_append, List.length_cons] at this
      omega
    rw [if_pos hlt, ← hdec]
  have h1 := hP.2 msg (cstr msg) hn
  rw [hself, Option.some_bind] at h1
  rw [h1]
  cases e with
  | none => rfl
  | some s =>
    simp only [Option.some_bind]
    rw [← sprintf_end_after msg (cstr msg) s hn, hself, Option.some_bind]

theorem get_CPU_info_terminated (h : Host) (file buf msg : List Char)
    (hc : h.cpuinfo = some file) (hs : snapshot file 512 = some buf) (hmsg : NUL ∈ msg) :
    get_CPU_info h msg = sprintf_end msg (text_CPU_line buf) := by
  rw [appends_terminated (appends_get_CPU_info h) msg hmsg]
  simp only [text_CPU_info, hc, hs, Option.map_some', Option.some_bind]

theorem dropWhile_blanks (ws x : List Char) (hws : ∀ c ∈ ws, c = ' ' ∨ c = '\t')
    (hx : ∀ c ∈ x.head?, c ≠ ' ' ∧ c ≠ '\t') :
    (ws ++ x).dropWhile (fun c => c == ' ' || c == '\t') = x := by
  induction ws with
  | nil =>
    cases x with
    | nil => rfl
    | cons c x =>
      obtain ⟨h1, h2⟩ := hx c (by simp)
      simp [List.dropWhile_cons, h1, h2]
  | cons w ws ih =>
    have hw := hws w (List.mem_cons_self _ _)
    have := ih (fun c hc => hws c (List.mem_cons_of_mem _ hc))
    rcases hw with rfl | rfl <;> simpa [List.dropWhile_cons] using this

theorem takeWhile_line (value tail : List Char) (hv : '\n' ∉ value)
    (htail : tail = [] ∨ ∃ post, tail = '\n' :: post) :
    (value ++ tail).takeWhile (fun c => c != '\n') = value := by
  induction value with
  | nil =>
    rcases htail with rfl | ⟨post, rfl⟩
    · rfl
    · simp [List.takeWhile_cons]
  | cons c value ih =>
    have hc : c ≠ '\n' := fun h => hv (by simp [h])
    have := ih (fun h => hv (List.mem_cons_of_mem _ h))
    simp [List.takeWhile_cons, hc, this]

theorem text_CPU_line_key (pre key_rest ws value tail : List Char)
    (hfirst : ¬ "model name".toList <:+: pre ++ "model name".toList.dropLast)
    (hkey : ∀ c ∈ key_rest, c = ' ' ∨ c = '\t')
    (hws : ∀ c ∈ ws, c = ' ' ∨ c = '\t')
    (hval : ∀ c ∈ value.head?, c ≠ ' ' ∧ c ≠ '\t') (hvnl : '\n' ∉ value)
    (htail : tail = [] ∨ ∃ post, tail = '\n' :: post) :
    text_CPU_line (pre ++ "model name".toList ++ key_rest ++ ':' :: ws ++ value ++ tail)
      = "\x1b[33mCPU:\x1b[0m\t\t".toList ++ value ++ "\n".toList := by
  have h1 : strstr (pre ++ "model name".toList ++ key_rest ++ ':' :: ws ++ value ++ tail)
        "model name".toList
      = some ("model name".toList ++ (key_rest ++ ':' :: (ws ++ (value ++ tail)))) := by
    have := strstr_first pre "model name".toList (key_rest ++ ':' :: (ws ++ (value ++ tail)))
      (by decide) hfirst
    simpa [List.append_assoc] using this
  have h2 : strchr ("model name".toList ++ (key_rest ++ ':' :: (ws ++ (value ++ tail)))) ':'
      = some (':' :: (ws ++ (value ++ tail))) := by
    have hm : ':' ∉ "model name".toList ++ key_rest := by
      intro hm
      rcases List.mem_append.1 hm with hm | hm
      · revert hm; decide
      · rcases hkey _ hm with hh | hh <;> revert hh <;> decide
    have := strchr_first ("model name".toList ++ key_rest) (ws ++ (value ++ tail)) ':' hm
    simpa [List.append_assoc] using this
  have hx : ∀ c ∈ (value ++ tail).head?, c ≠ ' ' ∧ c ≠ '\t' := by
    intro c hc
    cases value with
    | nil =>
      rcases htail with rfl | ⟨post, rfl⟩
      · simp at hc
      · simp only [List.nil_append, List.head?_cons, Option.mem_def, Option.some.injEq] at hc
        rw [← hc]
        decide
    | cons v value => exact hval c (by simpa using hc)
  rw [text_CPU_line, h1]
  simp only [h2, List.tail_cons, dropWhile_blanks ws _ hws hx,
    takeWhile_line value tail hvnl htail, List.append_assoc]

/-- C18, as stated, fails. The CPU description of `host_bogus` has one line whose key
is exactly `model name`, with the value `Right`; in front of it stands a line
that holds the words `model name` inside its key. `get_CPU_info` appends the
label with the value `Wrong` of that earlier line. -/
theorem cpu_model_from_other_line :
    host_bogus.cpuinfo = some "bogus model name-key: Wrong\nmodel name\t: Right\n".toList ∧
    get_CPU_info host_bogus fresh.msg
      = sprintf_end fresh.msg "\x1b[33mCPU:\x1b[0m\t\tWrong\n".toList := by
  refine ⟨rfl, ?_⟩
  rw [get_CPU_info_terminated host_bogus
    "bogus model name-key: Wrong\nmodel name\t: Right\n".toList
    "bogus model name-key: Wrong\nmodel name\t: Right\n".toList fresh.msg rfl (by decide!)
    (by decide!)]
  have e : text_CPU_line "bogus model name-key: Wrong\nmodel name\t: Right\n".toList
      = "\x1b[33mCPU:\x1b[0m\t\tWrong\n".toList := by decide!
  rw [e]

/-- C18, amended. For every readable CPU description in which the first occurrence of
the words `model name` is the key of a line (it stands at the start of the
text or behind a newline, and only blanks and tabs separate it from a colon),
`get_CPU_info` appends to the string in `msg` the colored `CPU:` label followed
by the text of that line behind its first colon, leading blanks and tabs
removed, up to the end of the line, and a newline. -/
theorem cpu_model_line (h : Host) (file pre key_rest ws value tail msg : List Char)
    (hc : h.cpuinfo = some file)
    (hs : snapshot file 512
      = some (pre ++ "model name".toList ++ key_rest ++ ':' :: ws ++ value ++ tail))
    (hfirst : ¬ "model name".toList <:+: pre ++ "model name".toList.dropLast)
    (_hstart : pre = [] ∨ pre.getLast? = some '\n')
    (hkey : ∀ c ∈ key_rest, c = ' ' ∨ c = '\t')
    (hws : ∀ c ∈ ws, c = ' ' ∨ c = '\t')
    (hval : ∀ c ∈ value.head?, c ≠ ' ' ∧ c ≠ '\t') (hvnl : '\n' ∉ value)
    (htail : tail = [] ∨ ∃ post, tail = '\n' :: post)
    (hmsg : NUL ∈ msg) :
    get_CPU_info h msg
      = sprintf_end msg ("\x1b[33mCPU:\x1b[0m\t\t".toList ++ value ++ "\n".toList) := by
  rw [get_CPU_info_terminated h file _ msg hc hs hmsg,
    text_CPU_line_key pre key_rest ws value tail hfirst hkey hws hval hvnl htail]

/-- The statement of `cpu_model_line` on `host_cpu`, whose second line is
`model name`, a tab, a colon, a blank and `Fast CPU`. -/
theorem cpu_model_line_witness :
    host_cpu.cpuinfo = some "processor\t: 0\nmodel name\t: Fast CPU\ncore id\t\t: 0\n".toList ∧
    snapshot "processor\t: 0\nmodel name\t: Fast CPU\ncore id\t\t: 0\n".toList 512
      = some ("processor\t: 0\n".toList ++ "model name".toList ++ "\t".toList
          ++ ':' :: " ".toList ++ "Fast CPU".toList ++ "\ncore id\t\t: 0\n".toList) ∧
    ¬ "model name".toList <:+: "processor\t: 0\n".toList ++ "model name".toList.dropLast ∧
    ("processor\t: 0\n".toList = [] ∨ "processor\t: 0\n".toList.getLast? = some '\n') ∧
    (∀ c ∈ "\t".toList, c = ' ' ∨ c = '\t') ∧ (∀ c ∈ " ".toList, c = ' ' ∨ c = '\t') ∧
    (∀ c ∈ "Fast CPU".toList.head?, c ≠ ' ' ∧ c ≠ '\t') ∧ '\n' ∉ "Fast CPU".toList ∧
    ("\ncore id\t\t: 0\n".toList = [] ∨
      ∃ post, "\ncore id\t\t: 0\n".toList = '\n' :: post) ∧
    NUL ∈ fresh.msg ∧
    get_CPU_info host_cpu fresh.msg
      = sprintf_end fresh.msg ("\x1b[33mCPU:\x1b[0m\t\t".toList ++ "Fast CPU".toList
          ++ "\n".toList) :=
  ⟨rfl, by decide!, by decide!, Or.inr (by decide), by decide, by decide, by decide, by decide,
    Or.inr ⟨"core id\t\t: 0\n".toList, by decide⟩, by decide!,
    cpu_model_line host_cpu "processor\t: 0\nmodel name\t: Fast CPU\ncore id\t\t: 0\n".toList
      "processor\t: 0\n".toList "\t".toList " ".toList "Fast CPU".toList
      "\ncore id\t\t: 0\n".toList fresh.msg rfl (by decide!) (by decide!) (Or.inr (by decide))
      (by decide) (by decide) (by decide) (by decide)
      (Or.inr ⟨"core id\t\t: 0\n".toList, by decide⟩) (by decide!)⟩

/-! ## C10: the label and the characters `model name` -/

/-- C10, amended. For every readable CPU description: when the characters `model name`
occur nowhere in it, `get_CPU_info` appends nothing, neither the label `CPU:`
nor a value nor a newline, and the buffer stays as it is; when they occur
anywhere in it, as a key or inside another key or a value, the text
`get_CPU_info` appends begins with the colored label `CPU:`. -/
theorem cpu_info_without_model_name (h : Host) (file buf : List Char)
    (hc : h.cpuinfo = some file) (hs : snapshot file 512 = some buf) (msg : List Char) :
    (¬ "model name".toList <:+: buf → get_CPU_info h msg = some msg) ∧
    ("model name".toList <:+: buf → NUL ∈ msg →
      ∃ rest, get_CPU_info h msg
        = sprintf_end msg ("\x1b[33mCPU:\x1b[0m\t\t".toList ++ rest)) := by
  refine ⟨fun hno => get_CPU_info_none h file buf hc hs hno msg, fun hin hmsg => ?_⟩
  rw [get_CPU_info_terminated h file buf msg hc hs hmsg]
  have hsome : (strstr buf "model name".toList).isSome = true := by
    rw [strstr_isSome_iff buf "model name".toList]
    exact decide_eq_true hin
  obtain ⟨model_name, hm⟩ := Option.isSome_iff_exists.1 hsome
  rw [text_CPU_line, hm]
  exact ⟨_, rfl⟩

/-- The statement of `cpu_info_without_model_name` on `host_nomodel`, whose CPU
description holds the characters `model name` nowhere, and on `host_inkey`,
where they stand inside the key of the only line. -/
theorem cpu_info_without_model_name_witness :
    (host_nomodel.cpuinfo = some "processor\t: 0\ncore id\t\t: 0\n".toList ∧
      snapshot "processor\t: 0\ncore id\t\t: 0\n".toList 512
        = some "processor\t: 0\ncore id\t\t: 0\n".toList ∧
      ¬ "model name".toList <:+: "processor\t: 0\ncore id\t\t: 0\n".toList ∧
      get_CPU_info host_nomodel fresh.msg = some fresh.msg) ∧
    (host_inkey.cpuinfo = some "bogus model name-key: Wrong\n".toList ∧
      snapshot "bogus model name-key: Wrong\n".toList 512
        = some "bogus model name-key: Wrong\n".toList ∧
      "model name".toList <:+: "bogus model name-key: Wrong\n".toList ∧
      NUL ∈ fresh.msg ∧
      ∃ rest, get_CPU_info host_inkey fresh.msg
        = sprintf_end fresh.msg ("\x1b[33mCPU:\x1b[0m\t\t".toList ++ rest)) :=
  ⟨⟨rfl, by decide!, by decide!,
      (cpu_info_without_model_name host_nomodel "processor\t: 0\ncore id\t\t: 0\n".toList
        "processor\t: 0\ncore id\t\t: 0\n".toList rfl (by decide!) fresh.msg).1 (by decide!)⟩,
    ⟨rfl, by decide!, by decide!, by decide!,
      (cpu_info_without_model_name host_inkey "bogus model name-key: Wrong\n".toList
        "bogus model name-key: Wrong\n".toList rfl (by decide!) fresh.msg).2 (by decide!)
        (by decide!)⟩⟩


end Kfetch
